import Mathlib

/-
  Verification of the camc/chess engine core against its natural-language
  specification.

  The definitions below are a shallow embedding of the C sources:
    - chess.c        : board model (BoardPos, Piece, GameState, helpers)
    - engine.c       : move rules, make_move, move ordering, negamax, generate_move
    - tptable.c      : the concurrent transposition table (modelled with explicit
                       state passing; all operations run under one mutex in C, so
                       the sequential state-passing model is faithful)
    - openings.c     : opening book binary search

  Machine integers are modelled as Int (C int / int8_t; the values involved never
  overflow, except INT_MIN which the code uses as a sentinel and never negates)
  and Nat (unsigned char depth, uint64_t Zobrist hashes, modulo 2^64 where noted).
  C arrays are modelled as Lean lists or total functions; the while loops of the
  attack detector are modelled with an explicit fuel that provably exceeds the
  number of iterations the loop can make (at most 8 steps fit on an 8-wide board).
-/

set_option maxHeartbeats 1000000

namespace Chess

/-! ## Board model (chess.h / chess.c) -/

/-- Piece kinds, numbered as in the C enum (Empty = 0 .. Pawn = 6). -/
inductive PieceType where
  | Empty | King | Queen | Rook | Bishop | Knight | Pawn
deriving DecidableEq, Repr

/-- The two players, White = 0 and Black = 1 as in the C enum. -/
inductive Player where
  | WhitePlayer | BlackPlayer
deriving DecidableEq, Repr

/-- A board square content: a kind together with an owner. Empty squares also
carry a player field in the C struct (zero-initialised to White). -/
structure Piece where
  type : PieceType
  player : Player
deriving DecidableEq, Repr

/-- A (file, rank) pair of signed 8-bit integers; also used for move directions.
Rank 0 is the top row (black's home side). -/
structure BoardPos where
  file : Int
  rank : Int
deriving DecidableEq, Repr

/-- The sentinel position, encoded as (15, 15) in the C source (0xf, 0xf). -/
def NULL_BOARDPOS : BoardPos := ⟨15, 15⟩

/-- A move: source and destination squares. -/
structure Move where
  from_pos : BoardPos
  to_pos : BoardPos
deriving DecidableEq, Repr

/-- boardpos_add from chess.c: componentwise addition clamped to NULL_BOARDPOS
when the result leaves the board. -/
def boardpos_add (a b : BoardPos) : BoardPos :=
  let r : BoardPos := ⟨a.file + b.file, a.rank + b.rank⟩
  if r.file > 7 ∨ r.rank > 7 ∨ r.file < 0 ∨ r.rank < 0 then NULL_BOARDPOS else r

/-- The full game state, mirroring struct GameState. The 16-slot piece-position
arrays are modelled as lists (absent slots hold NULL_BOARDPOS, as in C). -/
structure GameState where
  board : BoardPos → Piece
  white_to_move : Bool
  enpassant_target_white : Int
  enpassant_target_black : Int
  white_castlert_left : Bool
  white_castlert_right : Bool
  black_castlert_left : Bool
  black_castlert_right : Bool
  white_king : BoardPos
  black_king : BoardPos
  white_king_in_check : Bool
  black_king_in_check : Bool
  move_count : Int
  piece_list_white : List BoardPos
  piece_list_black : List BoardPos
  hash : Nat

def get_piece (s : GameState) (pos : BoardPos) : Piece := s.board pos

def put_piece (s : GameState) (piece : Piece) (pos : BoardPos) : GameState :=
  { s with board := fun p => if p = pos then piece else s.board p }

def other_player : Player → Player
  | .WhitePlayer => .BlackPlayer
  | .BlackPlayer => .WhitePlayer

def get_enpassant_target_file (s : GameState) (player : Player) : Int :=
  match player with
  | .WhitePlayer => s.enpassant_target_white
  | .BlackPlayer => s.enpassant_target_black

def unset_enpassant_target_file (s : GameState) (attacking_player : Player) : GameState :=
  match attacking_player with
  | .WhitePlayer => { s with enpassant_target_white := -1 }
  | .BlackPlayer => { s with enpassant_target_black := -1 }

def unset_castlert_left (s : GameState) (player : Player) : GameState :=
  match player with
  | .WhitePlayer => { s with white_castlert_left := false }
  | .BlackPlayer => { s with black_castlert_left := false }

def unset_castlert_right (s : GameState) (player : Player) : GameState :=
  match player with
  | .WhitePlayer => { s with white_castlert_right := false }
  | .BlackPlayer => { s with black_castlert_right := false }

def set_king_pos (s : GameState) (player : Player) (pos : BoardPos) : GameState :=
  match player with
  | .WhitePlayer => { s with white_king := pos }
  | .BlackPlayer => { s with black_king := pos }

def get_king_pos (s : GameState) (player : Player) : BoardPos :=
  match player with
  | .WhitePlayer => s.white_king
  | .BlackPlayer => s.black_king

def is_player_in_check (s : GameState) (player : Player) : Bool :=
  match player with
  | .WhitePlayer => s.white_king_in_check
  | .BlackPlayer => s.black_king_in_check

def piece_list (s : GameState) (player : Player) : List BoardPos :=
  match player with
  | .WhitePlayer => s.piece_list_white
  | .BlackPlayer => s.piece_list_black

/-- change_piece_list_pos replaces every occurrence of a position in a player's
piece list by another position (C loops over all 16 slots). -/
def change_piece_list_pos (s : GameState) (player : Player) (fp tp : BoardPos) : GameState :=
  match player with
  | .WhitePlayer =>
      { s with piece_list_white := s.piece_list_white.map (fun p => if fp = p then tp else p) }
  | .BlackPlayer =>
      { s with piece_list_black := s.piece_list_black.map (fun p => if fp = p then tp else p) }

/-- move_piece from chess.c: copy the source square to the destination, then
empty the source. Does not maintain any other state. -/
def move_piece (s : GameState) (fp tp : BoardPos) : GameState :=
  let s1 := put_piece s (get_piece s fp) tp
  put_piece s1 ⟨.Empty, .WhitePlayer⟩ fp

/-- Rook starting squares, left (file 0) wing, indexed by player. -/
def ROOK_STARTING_POSITIONS_LEFT (p : Player) : BoardPos :=
  match p with
  | .WhitePlayer => ⟨0, 7⟩
  | .BlackPlayer => ⟨0, 0⟩

/-- Rook starting squares, right (file 7) wing, indexed by player. -/
def ROOK_STARTING_POSITIONS_RIGHT (p : Player) : BoardPos :=
  match p with
  | .WhitePlayer => ⟨7, 7⟩
  | .BlackPlayer => ⟨7, 0⟩

/-- King starting squares indexed by player. -/
def KING_STARTING_POSITIONS (p : Player) : BoardPos :=
  match p with
  | .WhitePlayer => ⟨4, 7⟩
  | .BlackPlayer => ⟨4, 0⟩

/-! ## Zobrist hashing

zobrist.c is not present under src/ (only zobrist.h declaring hash_state).
hash_state is modelled from the spec. -/

/-- Modelled from the spec: zobrist.c is missing from the sources; §4.2 specifies
a process-lifetime table of 64-bit constants seeded deterministically. The exact
constants are unknowable here, so a fixed deterministic stand-in table is used.
No claim in this development depends on the concrete hash values. -/
def zobrist_const (n : Nat) : Nat := ((n + 1) * 2654435761 + 104729) % (2 ^ 64)

/-- Index of a piece for hashing: (kind, colour) pairs. -/
def piece_hash_index (p : Piece) : Nat :=
  (match p.type with
   | .Empty => 0 | .King => 1 | .Queen => 2 | .Rook => 3
   | .Bishop => 4 | .Knight => 5 | .Pawn => 6) * 2 +
  (match p.player with | .WhitePlayer => 0 | .BlackPlayer => 1)

/-- The 64 board squares, file-major as the C board array. -/
def allSquares : List BoardPos :=
  (List.range 8).flatMap (fun f : Nat => (List.range 8).map (fun r : Nat => (⟨(f : Int), (r : Int)⟩ : BoardPos)))

/-- Modelled from the spec: hash_state XORs the constants for each occupied
square's (square, kind, colour) triple, each castling right, each live
en-passant target file, and the side to move (§4.2). -/
def hash_state (s : GameState) : Nat :=
  let sqh := allSquares.foldl
    (fun acc pos =>
      let p := get_piece s pos
      if p.type = .Empty then acc
      else acc ^^^ zobrist_const ((pos.file.toNat * 8 + pos.rank.toNat) * 14 + piece_hash_index p))
    0
  let c1 := if s.white_castlert_left then zobrist_const 900 else 0
  let c2 := if s.white_castlert_right then zobrist_const 901 else 0
  let c3 := if s.black_castlert_left then zobrist_const 902 else 0
  let c4 := if s.black_castlert_right then zobrist_const 903 else 0
  let e1 := if 0 ≤ s.enpassant_target_white ∧ s.enpassant_target_white ≤ 7 then
      zobrist_const (910 + s.enpassant_target_white.toNat) else 0
  let e2 := if 0 ≤ s.enpassant_target_black ∧ s.enpassant_target_black ≤ 7 then
      zobrist_const (920 + s.enpassant_target_black.toNat) else 0
  let stm := if s.white_to_move then zobrist_const 930 else 0
  sqh ^^^ c1 ^^^ c2 ^^^ c3 ^^^ c4 ^^^ e1 ^^^ e2 ^^^ stm

/-! ## Transposition table (tptable.h / tptable.c)

All four operations run under a single mutex in C; they are modelled as pure
functions on an explicit table state. -/

def TRANSPOSITION_TABLE_SIZE : Nat := 1048576

/-- Bound kinds of stored values, as in enum EntryType. -/
inductive EntryType where
  | EntryTypeExact | EntryTypeUpper | EntryTypeLower
deriving DecidableEq, Repr

/-- An entry of the transposition table. `depth` is an unsigned char in C. -/
structure TranspositionEntry where
  hash : Nat
  best_move : Move
  depth : Nat
  value : Int
  type : EntryType
deriving DecidableEq, Repr

/-- The all-zero entry a cleared (memset 0) slot holds: hash 0, move from/to
(0,0), depth 0, value 0, type Exact (= 0). -/
def zeroEntry : TranspositionEntry :=
  ⟨0, ⟨⟨0, 0⟩, ⟨0, 0⟩⟩, 0, 0, .EntryTypeExact⟩

/-- The "not found" entry returned by tptable_get on a hash mismatch. -/
def nullEntry : TranspositionEntry :=
  ⟨0, ⟨NULL_BOARDPOS, NULL_BOARDPOS⟩, 0, 0, .EntryTypeExact⟩

/-- The table state: the slot array together with the protected-hash register.
Slots are indexed by hash mod TRANSPOSITION_TABLE_SIZE. -/
structure TPTable where
  table : Nat → TranspositionEntry
  protected_hash : Nat

/-- The initial state at program start: zeroed slot array, protected hash 0. -/
def tptable_initial : TPTable := ⟨fun _ => zeroEntry, 0⟩

/-- tptable_get: return the slot for hash mod size if its stored hash matches,
else the null entry. -/
def tptable_get (t : TPTable) (hash : Nat) : TranspositionEntry :=
  let e := t.table (hash % TRANSPOSITION_TABLE_SIZE)
  if e.hash = hash then e else nullEntry

/-- tptable_put: replacement policy straight from the source. The slot is
overwritten iff (stored hash differs from the protected hash AND the new hash
differs from the stored hash) OR (same hash AND stored depth ≤ new depth). -/
def tptable_put (t : TPTable) (entry : TranspositionEntry) : TPTable :=
  let slot := entry.hash % TRANSPOSITION_TABLE_SIZE
  let prev := t.table slot
  if (prev.hash ≠ t.protected_hash ∧ entry.hash ≠ prev.hash) ∨
     (prev.hash = entry.hash ∧ prev.depth ≤ entry.depth) then
    { t with table := fun i => if i = slot then entry else t.table i }
  else t

/-- tptable_clear zeroes the slot array (the protected-hash register is kept). -/
def tptable_clear (t : TPTable) : TPTable :=
  { t with table := fun _ => zeroEntry }

/-- tptable_set_protected_hash: record the hash as protected and, if its slot
currently stores a different hash, reset the slot to a seed entry for the new
hash (depth 0, value 0, null best move). -/
def tptable_set_protected_hash (t : TPTable) (hash : Nat) : TPTable :=
  let t1 : TPTable := { t with protected_hash := hash }
  let slot := hash % TRANSPOSITION_TABLE_SIZE
  let entry := t1.table slot
  if entry.hash ≠ hash then
    { t1 with table := fun i => if i = slot then
        { entry with hash := hash, depth := 0, value := 0,
                     best_move := ⟨NULL_BOARDPOS, NULL_BOARDPOS⟩ } else t1.table i }
  else t1

/-! ## Attack detection (engine.c, is_piece_attacked) -/

/-- Move directions of the queen (also the table row used for the king). -/
def QUEEN_DIRECTIONS : List BoardPos :=
  [⟨0, 1⟩, ⟨1, 1⟩, ⟨1, 0⟩, ⟨0, -1⟩, ⟨-1, -1⟩, ⟨-1, 0⟩, ⟨-1, 1⟩, ⟨1, -1⟩]

/-- Move directions of the king: the same table row as the queen. -/
def KING_DIRECTIONS : List BoardPos := QUEEN_DIRECTIONS

/-- Rook directions (the C row is padded with NULL entries where the loops stop). -/
def ROOK_DIRECTIONS : List BoardPos := [⟨0, 1⟩, ⟨0, -1⟩, ⟨-1, 0⟩, ⟨1, 0⟩]

/-- Bishop directions. -/
def BISHOP_DIRECTIONS : List BoardPos := [⟨1, 1⟩, ⟨-1, -1⟩, ⟨1, -1⟩, ⟨-1, 1⟩]

/-- Knight jump offsets. -/
def KNIGHT_DIRECTIONS : List BoardPos :=
  [⟨2, 1⟩, ⟨2, -1⟩, ⟨-2, 1⟩, ⟨-2, -1⟩, ⟨1, 2⟩, ⟨-1, 2⟩, ⟨1, -2⟩, ⟨-1, -2⟩]

/-- White pawn move offsets (captures, push, double push). -/
def PAWN_DIRECTIONS : List BoardPos := [⟨1, -1⟩, ⟨-1, -1⟩, ⟨0, -1⟩, ⟨0, -2⟩]

/-- The acceptance test of the ray loop in is_piece_attacked: a queen always
matches; a king matches when the translation has magnitude at most 1 in both
components (which holds for all eight unit directions, so a king anywhere on a
clear ray matches); a bishop on diagonal translations; a rook on straight ones. -/
def correct_ray_piece (t : BoardPos) (pt : PieceType) : Bool :=
  let is_diagonal := t.file.natAbs = t.rank.natAbs
  let is_king := t.file.natAbs ≤ 1 ∧ t.rank.natAbs ≤ 1
  decide (pt = .Queen ∨ (is_king ∧ pt = .King) ∨ (is_diagonal ∧ pt = .Bishop) ∨
          (¬is_diagonal ∧ pt = .Rook))

/-- The inner while loop of the ray scan: walk from `check` in direction `t`
until the board edge (NULL) or the first occupied square, which attacks iff it
holds a matching piece of the attacker's colour. The C loop is unbounded; from
any square it makes at most 8 steps before boardpos_add yields NULL, so fuel 16
never truncates it. -/
def ray_attack_loop (s : GameState) (attacker : Player) (t : BoardPos) :
    Nat → BoardPos → Bool
  | 0, _ => false
  | fuel + 1, check =>
    if check = NULL_BOARDPOS then false
    else
      let cp := get_piece s check
      if cp.type ≠ .Empty then
        correct_ray_piece t cp.type && decide (cp.player = attacker)
      else ray_attack_loop s attacker t fuel (boardpos_add check t)

def RAY_FUEL : Nat := 16

/-- The pawn scan of is_piece_attacked. The two diagonal offsets are taken in
the direction determined by the player stored at the attacked square (negated
when that player is Black), exactly as the source does. -/
def pawn_attack_scan (s : GameState) (attackee_pos : BoardPos) (attacker : Player) : Bool :=
  let attackee_piece := get_piece s attackee_pos
  PAWN_DIRECTIONS.any fun d0 =>
    if d0.file = 0 then false
    else
      let d : BoardPos :=
        if attackee_piece.player = .BlackPlayer then ⟨-d0.file, -d0.rank⟩ else d0
      let check := boardpos_add attackee_pos d
      if check = NULL_BOARDPOS then false
      else
        let cp := get_piece s check
        decide (cp.type = .Pawn ∧ cp.player = attacker)

/-- The knight scan of is_piece_attacked. -/
def knight_attack_scan (s : GameState) (attackee_pos : BoardPos) (attacker : Player) : Bool :=
  KNIGHT_DIRECTIONS.any fun d =>
    let check := boardpos_add attackee_pos d
    if check = NULL_BOARDPOS then false
    else
      let cp := get_piece s check
      decide (cp.type = .Knight ∧ cp.player = attacker)

/-- is_piece_attacked from engine.c: ray scan for king/queen/rook/bishop, then
the pawn scan, then the knight scan. -/
def is_piece_attacked (s : GameState) (attackee_pos : BoardPos) (attacker : Player) : Bool :=
  (QUEEN_DIRECTIONS.any fun t =>
    ray_attack_loop s attacker t RAY_FUEL (boardpos_add attackee_pos t))
  || pawn_attack_scan s attackee_pos attacker
  || knight_attack_scan s attackee_pos attacker

/-! ## Pseudo-legal move patterns (engine.c, is_move_possible) -/

/-- The list of integers lo, lo+1, ..., hi-1 (the C loop for i = lo; i < hi). -/
def intRange (lo hi : Int) : List Int :=
  (List.range (hi - lo).toNat).map fun n : Nat => lo + (n : Int)

/-- The castling-path check inside is_move_possible: every square strictly
inspected by the loop (files 4..6 kingside, 4..1 queenside) must be empty except
the king's own square, and unattacked except file 1. -/
def castle_path_ok (s : GameState) (player : Player) (m : Move) : Bool :=
  let files : List Int := if m.to_pos.file = 6 then [4, 5, 6] else [4, 3, 2, 1]
  files.all fun i =>
    (decide (i = 4) || decide ((get_piece s ⟨i, m.from_pos.rank⟩).type = .Empty)) &&
    (decide (i = 1) || ! is_piece_attacked s ⟨i, m.from_pos.rank⟩ (other_player player))

/-- is_move_possible from engine.c: shape and path checks only (no legality). -/
def is_move_possible (s : GameState) (m : Move) : Bool :=
  let from_piece := get_piece s m.from_pos
  let to_piece := get_piece s m.to_pos
  if to_piece.type ≠ .Empty ∧ from_piece.player = to_piece.player then false
  else
    match from_piece.type with
    | .King =>
      if (m.from_pos.file - m.to_pos.file).natAbs ≤ 1 ∧
         (m.from_pos.rank - m.to_pos.rank).natAbs ≤ 1 then true
      else
        if m.from_pos.rank = m.to_pos.rank ∧ (m.to_pos.file = 6 ∨ m.to_pos.file = 2) ∧
           m.from_pos = KING_STARTING_POSITIONS from_piece.player then
          castle_path_ok s from_piece.player m
        else false
    | .Queen | .Rook | .Bishop =>
      if m.from_pos.file = m.to_pos.file then
        if from_piece.type = .Bishop then false
        else
          (intRange (min m.from_pos.rank m.to_pos.rank + 1)
                    (max m.from_pos.rank m.to_pos.rank)).all fun i =>
            decide ((get_piece s ⟨m.from_pos.file, i⟩).type = .Empty)
      else if m.from_pos.rank = m.to_pos.rank then
        if from_piece.type = .Bishop then false
        else
          (intRange (min m.from_pos.file m.to_pos.file + 1)
                    (max m.from_pos.file m.to_pos.file)).all fun i =>
            decide ((get_piece s ⟨i, m.from_pos.rank⟩).type = .Empty)
      else if (m.from_pos.file - m.to_pos.file).natAbs =
              (m.from_pos.rank - m.to_pos.rank).natAbs then
        if from_piece.type = .Rook then false
        else
          let file_add : Int := if m.from_pos.file > m.to_pos.file then -1 else 1
          let rank_add : Int := if m.from_pos.rank > m.to_pos.rank then -1 else 1
          (List.range ((m.from_pos.file - m.to_pos.file).natAbs - 1)).all fun j : Nat =>
            decide ((get_piece s ⟨m.from_pos.file + file_add * ((j : Int) + 1),
                                  m.from_pos.rank + rank_add * ((j : Int) + 1)⟩).type = .Empty)
      else false
    | .Knight =>
      decide (((m.from_pos.file - m.to_pos.file).natAbs = 2 ∧
               (m.from_pos.rank - m.to_pos.rank).natAbs = 1) ∨
              ((m.from_pos.file - m.to_pos.file).natAbs = 1 ∧
               (m.from_pos.rank - m.to_pos.rank).natAbs = 2))
    | .Pawn =>
      let direction : Int := if from_piece.player = .BlackPlayer then 1 else -1
      decide ((m.to_pos.rank - m.from_pos.rank = direction ∧
               (m.from_pos.file - m.to_pos.file).natAbs ≤ 1) ∨
              (m.to_pos.rank - m.from_pos.rank = 2 * direction ∧
               m.from_pos.file = m.to_pos.file))
    | .Empty => false

/-! ## State mutation (engine.c, make_move) -/

/-- make_move from engine.c: apply a move, updating en-passant targets, castling
rights, the rook on castling, promotion, piece lists, check flags, ply counter,
side to move, and the hash (0 when calculate_hash is false). -/
def make_move (s : GameState) (m : Move) (calculate_hash : Bool) : GameState :=
  let from_piece := get_piece s m.from_pos
  let to_piece := get_piece s m.to_pos
  let s1 :=
    if from_piece.type = .Pawn then
      if (m.from_pos.rank - m.to_pos.rank).natAbs = 2 then
        match from_piece.player with
        | .WhitePlayer => { s with enpassant_target_black := m.from_pos.file }
        | .BlackPlayer => { s with enpassant_target_white := m.from_pos.file }
      else
        let sa :=
          if m.from_pos.file ≠ m.to_pos.file ∧ to_piece.type = .Empty then
            let sb := put_piece s ⟨.Empty, .WhitePlayer⟩ ⟨m.to_pos.file, m.from_pos.rank⟩
            change_piece_list_pos sb (other_player from_piece.player)
              ⟨m.to_pos.file, m.from_pos.rank⟩ NULL_BOARDPOS
          else s
        unset_enpassant_target_file sa (other_player from_piece.player)
    else if from_piece.type = .Rook ∧
            (m.from_pos = ROOK_STARTING_POSITIONS_LEFT from_piece.player ∨
             m.from_pos = ROOK_STARTING_POSITIONS_RIGHT from_piece.player) then
      if m.from_pos.file = 0 then unset_castlert_left s from_piece.player
      else if m.from_pos.file = 7 then unset_castlert_right s from_piece.player
      else s
    else if to_piece.type = .Rook ∧
            (m.to_pos = ROOK_STARTING_POSITIONS_LEFT to_piece.player ∨
             m.to_pos = ROOK_STARTING_POSITIONS_RIGHT to_piece.player) then
      if m.to_pos.file = 0 then unset_castlert_left s to_piece.player
      else if m.to_pos.file = 7 then unset_castlert_right s to_piece.player
      else s
    else if from_piece.type = .King then
      let sk := unset_castlert_right (unset_castlert_left s from_piece.player) from_piece.player
      let sk2 :=
        if m.from_pos = KING_STARTING_POSITIONS from_piece.player then
          if m.to_pos.file = 2 then
            change_piece_list_pos
              (move_piece sk ⟨0, m.from_pos.rank⟩ ⟨3, m.from_pos.rank⟩)
              from_piece.player ⟨0, m.from_pos.rank⟩ ⟨3, m.from_pos.rank⟩
          else if m.to_pos.file = 6 then
            let ska := put_piece sk ⟨.Empty, .WhitePlayer⟩ ⟨7, m.from_pos.rank⟩
            let skb := put_piece ska ⟨.Rook, from_piece.player⟩ ⟨5, m.from_pos.rank⟩
            change_piece_list_pos skb from_piece.player ⟨7, m.from_pos.rank⟩ ⟨5, m.from_pos.rank⟩
          else sk
        else sk
      set_king_pos sk2 from_piece.player m.to_pos
    else s
  let s2 := change_piece_list_pos s1 from_piece.player m.from_pos m.to_pos
  let s3 := if to_piece.type ≠ .Empty then
      change_piece_list_pos s2 to_piece.player m.to_pos NULL_BOARDPOS
    else s2
  let s4 := unset_enpassant_target_file s3 from_piece.player
  let new_piece : Piece :=
    if from_piece.type = .Pawn ∧ (m.to_pos.rank = 0 ∨ m.to_pos.rank = 7) then
      ⟨.Queen, from_piece.player⟩
    else from_piece
  let s5 := put_piece s4 new_piece m.to_pos
  let s6 := put_piece s5 ⟨.Empty, .WhitePlayer⟩ m.from_pos
  let s7 := { s6 with black_king_in_check := is_piece_attacked s6 s6.black_king .WhitePlayer }
  let s8 := { s7 with white_king_in_check := is_piece_attacked s7 s7.white_king .BlackPlayer }
  let s9 := { s8 with move_count := s8.move_count + 1 }
  let s10 := { s9 with white_to_move := ! s9.white_to_move }
  if calculate_hash then { s10 with hash := hash_state s10 } else { s10 with hash := 0 }

/-! ## Legality (engine.c, is_move_legal) -/

/-- The player whose turn it is. -/
def side_to_move (s : GameState) : Player :=
  if s.white_to_move then .WhitePlayer else .BlackPlayer

/-- is_state_legal: the player who just moved must not be in check. -/
def is_state_legal (s : GameState) : Bool :=
  ! is_player_in_check s (if s.white_to_move then .BlackPlayer else .WhitePlayer)

/-- is_move_legal from engine.c: pattern check, no king capture, correct side to
move, pawn en-passant / double-push / push checks, castling rights, and finally
legality of the resulting state (mover not left in check), computed by applying
the move to a copy without hashing. -/
def is_move_legal (s : GameState) (m : Move) : Bool :=
  if is_move_possible s m = false then false
  else
    let from_piece := get_piece s m.from_pos
    let to_piece := get_piece s m.to_pos
    if to_piece.type = .King then false
    else if from_piece.player ≠ side_to_move s then false
    else
      let special_ok : Bool :=
        if from_piece.type = .Pawn then
          if m.from_pos.file ≠ m.to_pos.file then
            if to_piece.type = .Empty then
              ! decide ((from_piece.player = .WhitePlayer ∧ m.from_pos.rank ≠ 3) ∨
                        (from_piece.player = .BlackPlayer ∧ m.from_pos.rank ≠ 4) ∨
                        get_enpassant_target_file s from_piece.player ≠ m.to_pos.file)
            else true
          else if (m.from_pos.rank - m.to_pos.rank).natAbs = 2 then
            if from_piece.player = .BlackPlayer ∧ m.from_pos.rank ≠ 1 then false
            else if from_piece.player = .WhitePlayer ∧ m.from_pos.rank ≠ 6 then false
            else
              let max_rank := max m.to_pos.rank m.from_pos.rank
              let piece1 := get_piece s ⟨m.from_pos.file, max_rank - 1⟩
              let piece2 := get_piece s ⟨m.from_pos.file, m.to_pos.rank⟩
              ! decide (piece1.type ≠ .Empty ∨ piece2.type ≠ .Empty)
          else
            decide ((get_piece s m.to_pos).type = .Empty)
        else if from_piece.type = .King ∧ (m.from_pos.file - m.to_pos.file).natAbs = 2 then
          if from_piece.player = .WhitePlayer then
            ! decide ((m.to_pos.file = 2 ∧ s.white_castlert_left = false) ∨
                      (m.to_pos.file = 6 ∧ s.white_castlert_right = false))
          else
            ! decide ((m.to_pos.file = 2 ∧ s.black_castlert_left = false) ∨
                      (m.to_pos.file = 6 ∧ s.black_castlert_right = false))
        else true
      if special_ok = false then false
      else is_state_legal (make_move s m false)

/-! ## Move generation (engine.c, legal_moves_from_pos / all_legal_moves_ordered) -/

/-- The slider inner while loop: walk outward in direction `t`, collecting each
destination for which the move is legal (blocking is handled by is_move_legal).
Fuel 16 again strictly exceeds the at most 8 iterations the C loop can make. -/
def slider_dests (s : GameState) (initial t : BoardPos) : Nat → BoardPos → List BoardPos
  | 0, _ => []
  | fuel + 1, check =>
    if check = NULL_BOARDPOS then []
    else
      (if is_move_legal s ⟨initial, check⟩ then [check] else []) ++
      slider_dests s initial t fuel (boardpos_add check t)

/-- legal_moves_from_pos from engine.c: the ordered list of legal destinations
for the piece standing at `initial`. -/
def legal_moves_from_pos (s : GameState) (initial : BoardPos) : List BoardPos :=
  let piece := get_piece s initial
  match piece.type with
  | .King =>
    let normal := KING_DIRECTIONS.flatMap fun d =>
      let check := boardpos_add initial d
      if check ≠ NULL_BOARDPOS ∧ is_move_legal s ⟨initial, check⟩ = true then [check] else []
    let castles :=
      if initial = KING_STARTING_POSITIONS piece.player then
        ([⟨2, 0⟩, ⟨-2, 0⟩] : List BoardPos).flatMap fun d =>
          let check := boardpos_add initial d
          if is_move_legal s ⟨initial, check⟩ then [check] else []
      else []
    normal ++ castles
  | .Queen => QUEEN_DIRECTIONS.flatMap fun d =>
      slider_dests s initial d 16 (boardpos_add initial d)
  | .Rook => ROOK_DIRECTIONS.flatMap fun d =>
      slider_dests s initial d 16 (boardpos_add initial d)
  | .Bishop => BISHOP_DIRECTIONS.flatMap fun d =>
      slider_dests s initial d 16 (boardpos_add initial d)
  | .Knight => KNIGHT_DIRECTIONS.flatMap fun d =>
      let check := boardpos_add initial d
      if check ≠ NULL_BOARDPOS ∧ is_move_legal s ⟨initial, check⟩ = true then [check] else []
  | .Pawn => PAWN_DIRECTIONS.flatMap fun d0 =>
      let d : BoardPos := if piece.player = .BlackPlayer then ⟨-d0.file, -d0.rank⟩ else d0
      let check := boardpos_add initial d
      if check ≠ NULL_BOARDPOS ∧ is_move_legal s ⟨initial, check⟩ = true then [check] else []
  | .Empty => []

/-- The moves contributed by one piece-list slot: none for a NULL slot, else the
destinations from legal_moves_from_pos paired with the source square. -/
def moves_of_piece (s : GameState) (fp : BoardPos) : List Move :=
  if fp = NULL_BOARDPOS then []
  else (legal_moves_from_pos s fp).map fun t => ⟨fp, t⟩

/-- The flat list of generated legal moves for a player, in generation order
(piece-list order, then per-piece destination order). -/
def gen_moves (s : GameState) (player : Player) : List Move :=
  (piece_list s player).flatMap (moves_of_piece s)

/-- The capture test of all_legal_moves_ordered: destination holds an enemy
piece, or the mover is a pawn moving off its file (en-passant). -/
def is_capture_move (s : GameState) (player : Player) (m : Move) : Bool :=
  let to_piece := get_piece s m.to_pos
  let from_piece := get_piece s m.from_pos
  decide ((to_piece.type ≠ .Empty ∧ to_piece.player ≠ player) ∨
          (from_piece.type = .Pawn ∧ m.from_pos.file ≠ m.to_pos.file))

/-- The classification loop of all_legal_moves_ordered over the generated moves:
splits them into captures and quiet moves, skipping at most one occurrence of
the principal-variation move while the `waiting` flag is set. Returns
(captures, quiet moves, final waiting flag). -/
def classify_moves (s : GameState) (player : Player) (best : Move) :
    Bool → List Move → List Move × List Move × Bool
  | w, [] => ([], [], w)
  | w, m :: rest =>
    if w = true ∧ m = best then classify_moves s player best false rest
    else
      let r := classify_moves s player best w rest
      if is_capture_move s player m then (m :: r.1, r.2.1, r.2.2)
      else (r.1, m :: r.2.1, r.2.2)

/-- all_legal_moves_ordered from engine.c: if the transposition-table entry for
the position's hash has nonzero depth and a non-null best move, that move is
placed first (and skipped once during generation); then all captures in
generation order; then the remaining moves in generation order. -/
def all_legal_moves_ordered (s : GameState) (player : Player) (tt : TPTable) : List Move :=
  let tp_entry := tptable_get tt s.hash
  let has_pvn := tp_entry.depth ≠ 0 ∧ tp_entry.best_move.from_pos ≠ NULL_BOARDPOS
  let r := classify_moves s player tp_entry.best_move (decide has_pvn) (gen_moves s player)
  (if has_pvn then [tp_entry.best_move] else []) ++ r.1 ++ r.2.1

/-! ## Terminal position tests (engine.c) -/

/-- Whether some non-NULL piece-list slot of the player has at least one legal
move (the loop shared by is_stalemate and is_player_checkmated). -/
def has_any_legal_move (s : GameState) (player : Player) : Bool :=
  (piece_list s player).any fun p =>
    decide (p ≠ NULL_BOARDPOS) && decide ((legal_moves_from_pos s p).length ≠ 0)

/-- is_stalemate: the side to move is not in check and has no legal moves. -/
def is_stalemate (s : GameState) : Bool :=
  let to_move := side_to_move s
  if is_player_in_check s to_move then false
  else ! has_any_legal_move s to_move

/-- is_player_checkmated: in check with no legal moves. -/
def is_player_checkmated (s : GameState) (player : Player) : Bool :=
  if ! is_player_in_check s player then false
  else ! has_any_legal_move s player

/-! ## Static evaluation (engine.c, position_value) -/

/-- The material values, indexed by piece kind as PIECE_VALUES[type - 1]. -/
def piece_value : PieceType → Int
  | .Empty => 0
  | .King => 20000
  | .Queen => 900
  | .Rook => 500
  | .Bishop => 330
  | .Knight => 320
  | .Pawn => 100

/-- position_value from engine.c: check bonus, material over both piece lists,
castling rights, king-adjacent friendly pieces, and central control. -/
def position_value (s : GameState) : Int :=
  let v0 : Int :=
    if is_player_in_check s .WhitePlayer then -30
    else if is_player_in_check s .BlackPlayer then 30
    else 0
  let v1 := s.piece_list_white.foldl
    (fun acc p => if p ≠ NULL_BOARDPOS then acc + piece_value (get_piece s p).type else acc) v0
  let v2 := s.piece_list_black.foldl
    (fun acc p => if p ≠ NULL_BOARDPOS then acc - piece_value (get_piece s p).type else acc) v1
  let b2i : Bool → Int := fun b => if b then 1 else 0
  let v3 := v2 + b2i s.white_castlert_left + b2i s.white_castlert_right
               - b2i s.black_castlert_left - b2i s.black_castlert_right
  let v4 := KING_DIRECTIONS.foldl
    (fun acc d =>
      let cf := boardpos_add s.white_king d
      let ce := boardpos_add s.black_king d
      let a1 := if cf ≠ NULL_BOARDPOS ∧
                   (get_piece s cf).type ≠ .Empty ∧ (get_piece s cf).player = .WhitePlayer
                then acc + 10 else acc
      if ce ≠ NULL_BOARDPOS ∧
         (get_piece s ce).type ≠ .Empty ∧ (get_piece s ce).player = .BlackPlayer
      then a1 - 10 else a1) v3
  let centre : List (Int × Int) :=
    ([2, 3, 4, 5] : List Int).flatMap fun f => ([2, 3, 4, 5] : List Int).map fun r => (f, r)
  centre.foldl
    (fun acc fr =>
      let p := get_piece s ⟨fr.1, fr.2⟩
      if p.type = .Empty then acc
      else if fr.1 = 2 ∨ fr.1 = 5 ∨ fr.2 = 2 ∨ fr.2 = 5 then
        acc + (if p.player = .WhitePlayer then 2 else -2)
      else acc + (if p.player = .WhitePlayer then 5 else -5)) v4

/-! ## Negamax search (engine.c)

The C function mutates the process-global transposition table and polls the
wall clock at each node. The table is threaded explicitly; the clock poll
`time(NULL) - start_time >= MAX_MOVEGEN_SEARCH_TIME` is abstracted as a
boolean `time_expired` parameter held constant over the search (no claim in
this development depends on the clock advancing mid-search). -/

/-- INT_MIN of a 32-bit int, the search's abort sentinel. -/
def INT_MIN : Int := -(2 ^ 31)

/-- The accumulator of the move loop inside negamax. -/
structure NegamaxLoopState where
  tt : TPTable
  alpha : Int
  best_value : Int
  best_move : Move
  aborted : Bool

/-- The move loop of negamax: evaluate children with the negated window, bubble
the INT_MIN abort sentinel up immediately, track best value/move, raise alpha,
and beta-cut when alpha ≥ beta. -/
def negamax_loop (s : GameState) (beta : Int)
    (child : GameState → Int → Int → TPTable → Int × TPTable) :
    List Move → NegamaxLoopState → NegamaxLoopState
  | [], st => st
  | m :: rest, st =>
    let s_copy := make_move s m true
    let r := child s_copy (-beta) (-st.alpha) st.tt
    if r.1 = INT_MIN then { st with tt := r.2, aborted := true }
    else
      let value := -r.1
      let st1 :=
        if value > st.best_value then
          { st with tt := r.2, best_value := value, best_move := m,
                    alpha := if value > st.alpha then value else st.alpha }
        else { st with tt := r.2 }
      if st1.alpha ≥ beta then st1
      else negamax_loop s beta child rest st1

/-- Everything negamax does after its transposition-table lookup block: terminal
checks, leaf evaluation, time check, the move loop, and the final table store
with the bound kind derived from start_alpha and beta. -/
def negamax_rest (child : GameState → Int → Int → TPTable → Int × TPTable)
    (depth : Nat) (s : GameState) (start_alpha alpha beta : Int)
    (time_expired : Bool) (tt : TPTable) (tp0 : TranspositionEntry) : Int × TPTable :=
  let player := side_to_move s
  if is_player_checkmated s player then (-1000000, tt)
  else if is_player_checkmated s (other_player player) then (1000000, tt)
  else if is_stalemate s then (0, tt)
  else if depth = 0 then
    (position_value s * (if player = .WhitePlayer then 1 else -1), tt)
  else if time_expired then (INT_MIN, tt)
  else
    let tp1 := if tp0.depth = 0 then
        { tp0 with best_move := ⟨NULL_BOARDPOS, NULL_BOARDPOS⟩ } else tp0
    let tp2 := { tp1 with hash := s.hash, depth := depth }
    let legal_moves := all_legal_moves_ordered s player tt
    let st := negamax_loop s beta child legal_moves ⟨tt, alpha, INT_MIN, tp2.best_move, false⟩
    if st.aborted then (INT_MIN, st.tt)
    else
      let ty := if st.best_value ≤ start_alpha then EntryType.EntryTypeUpper
                else if st.best_value ≥ beta then EntryType.EntryTypeLower
                else EntryType.EntryTypeExact
      let tp3 := { tp2 with value := st.best_value, best_move := st.best_move, type := ty }
      (st.best_value, tptable_put st.tt tp3)

/-- The transposition-table lookup block at the top of negamax: on a stored
depth ≥ the current depth, an Exact entry's value is returned at once; a Lower
entry raises alpha to max(alpha, value); an Upper entry lowers beta to
min(beta, value); if after the adjustment alpha ≥ beta, the entry's value is
returned. Otherwise the rest of the function runs with the adjusted window
(start_alpha keeps the original alpha for the bound classification). -/
def negamax_entry (child : GameState → Int → Int → TPTable → Int × TPTable)
    (depth : Nat) (s : GameState) (alpha beta : Int)
    (time_expired : Bool) (tt : TPTable) : Int × TPTable :=
  let start_alpha := alpha
  let tp_entry := tptable_get tt s.hash
  if tp_entry.depth ≠ 0 ∧ depth ≤ tp_entry.depth then
    if tp_entry.type = .EntryTypeExact then (tp_entry.value, tt)
    else
      let alpha1 := if tp_entry.type = .EntryTypeLower then max alpha tp_entry.value else alpha
      let beta1 := if tp_entry.type = .EntryTypeUpper then min beta tp_entry.value else beta
      if alpha1 ≥ beta1 then (tp_entry.value, tt)
      else negamax_rest child depth s start_alpha alpha1 beta1 time_expired tt tp_entry
  else negamax_rest child depth s start_alpha alpha beta time_expired tt tp_entry

/-- negamax from engine.c, by structural recursion on the depth. At depth 0 the
function returns at its leaf check before the move loop, so the child passed
there is never invoked. -/
def negamax : Nat → GameState → Int → Int → Bool → TPTable → Int × TPTable
  | 0, s, alpha, beta, te, tt =>
      negamax_entry (fun _ _ _ tt1 => (0, tt1)) 0 s alpha beta te tt
  | depth + 1, s, alpha, beta, te, tt =>
      negamax_entry (fun s1 a b tt1 => negamax depth s1 a b te tt1) (depth + 1) s alpha beta te tt

/-- The child function negamax at a given depth hands to its move loop: the
recursive call at depth - 1 (never invoked at depth 0). -/
def negamax_child (depth : Nat) (te : Bool) :
    GameState → Int → Int → TPTable → Int × TPTable :=
  match depth with
  | 0 => fun _ _ _ tt1 => (0, tt1)
  | d + 1 => fun s1 a b tt1 => negamax d s1 a b te tt1

/-! ## Opening book (openings.c) -/

/-- An opening-book item: a position hash and its response moves. -/
structure OpeningItem where
  hash : Nat
  moves : List Move
deriving DecidableEq, Repr

/-- binary_search_items from openings.c. Indices are 32-bit unsigned in C:
`high = mid - 1` wraps modulo 2^32, and a subsequent out-of-bounds read is
undefined behaviour, modelled here as a miss; the fuel (64 > log2 of any legal
item count) never truncates a well-defined search. -/
def binary_search_items (items : List OpeningItem) (hash : Nat) :
    Nat → Nat → Nat → Option OpeningItem
  | 0, _, _ => none
  | fuel + 1, low, high =>
    if low ≤ high then
      let mid := (high + low) / 2
      match items.get? mid with
      | none => none
      | some it =>
        if it.hash = hash then some it
        else if it.hash < hash then binary_search_items items hash fuel (mid + 1) high
        else binary_search_items items hash fuel low ((mid + (2 ^ 32 - 1)) % 2 ^ 32)
    else none

/-- find_opening_by_hash from openings.c. -/
def find_opening_by_hash (items : List OpeningItem) (hash : Nat) : Option OpeningItem :=
  if items.length = 0 then none
  else binary_search_items items hash 64 0 (items.length - 1)

/-! ## Engine facade (engine.c, generate_move) -/

def CHAR_MAX : Nat := 127
def MAX_SEARCH_DEPTH : Nat := 32

/-- The externally observable effects of one generate_move call: the resulting
transposition-table state and the depths of the root_search tasks enqueued on
the worker pool (empty when the call returns through the opening book). -/
structure GenerateMoveResult where
  tt : TPTable
  dispatched_depths : List Nat

/-- generate_move from engine.c: protect the root hash; on move_count ≤ 5 try
the opening book, choosing one of the entry's moves by rand() mod count; if the
chosen move is legal, store it as an Exact entry of depth CHAR_MAX at the root
hash and return without enqueuing anything; otherwise (illegal choice, book
miss, or past the book phase) enqueue the iterative-deepening tasks for depths
1..MAX_SEARCH_DEPTH. -/
def generate_move (s : GameState) (book : List OpeningItem) (rand_val : Nat)
    (tt : TPTable) : GenerateMoveResult :=
  let tt1 := tptable_set_protected_hash tt s.hash
  let dispatch : GenerateMoveResult :=
    ⟨tt1, (List.range MAX_SEARCH_DEPTH).map fun d => d + 1⟩
  if s.move_count ≤ 5 then
    match find_opening_by_hash book s.hash with
    | some opening =>
      let move := opening.moves.getD (rand_val % opening.moves.length)
        ⟨NULL_BOARDPOS, NULL_BOARDPOS⟩
      if is_move_legal s move then
        let entry0 := tptable_get tt1 s.hash
        let entry := { entry0 with hash := s.hash, best_move := move,
                                   depth := CHAR_MAX, value := 0,
                                   type := EntryType.EntryTypeExact }
        ⟨tptable_put tt1 entry, []⟩
      else dispatch
    | none => dispatch
  else dispatch

/-! ## Specification-side predicates used by refinement claims -/

/-- The replacement condition exactly as the specification words it (claim C3):
put writes the slot if (a) the slot is empty (the all-zero cleared entry), or
(b) the slot holds the same hash with stored depth ≤ the new depth, or (c) the
slot holds a different hash that is not the currently protected hash. -/
abbrev tptable_put_spec_writes (t : TPTable) (entry : TranspositionEntry) : Prop :=
  t.table (entry.hash % TRANSPOSITION_TABLE_SIZE) = zeroEntry ∨
  ((t.table (entry.hash % TRANSPOSITION_TABLE_SIZE)).hash = entry.hash ∧
   (t.table (entry.hash % TRANSPOSITION_TABLE_SIZE)).depth ≤ entry.depth) ∨
  ((t.table (entry.hash % TRANSPOSITION_TABLE_SIZE)).hash ≠ entry.hash ∧
   (t.table (entry.hash % TRANSPOSITION_TABLE_SIZE)).hash ≠ t.protected_hash)

/-- The replacement condition the source actually implements, stated in the
specification's (b)/(c) form without the separate empty-slot case: same hash
with stored depth ≤ new depth, or a different stored hash that is not the
currently protected hash. An empty slot (stored hash 0) is covered by (c)
exactly when 0 is not the protected hash, and by (b) when the new hash is 0. -/
abbrev tptable_put_amended_writes (t : TPTable) (entry : TranspositionEntry) : Prop :=
  ((t.table (entry.hash % TRANSPOSITION_TABLE_SIZE)).hash = entry.hash ∧
   (t.table (entry.hash % TRANSPOSITION_TABLE_SIZE)).depth ≤ entry.depth) ∨
  ((t.table (entry.hash % TRANSPOSITION_TABLE_SIZE)).hash ≠ entry.hash ∧
   (t.table (entry.hash % TRANSPOSITION_TABLE_SIZE)).hash ≠ t.protected_hash)

/-! ## Specification-side attack predicates (claim C7) -/

/-- A square with both coordinates in 0..7. -/
abbrev onBoard (p : BoardPos) : Prop :=
  0 ≤ p.file ∧ p.file ≤ 7 ∧ 0 ≤ p.rank ∧ p.rank ≤ 7

/-- The square k steps from pos in direction t (pure arithmetic, no clamping). -/
def stepN (pos t : BoardPos) (k : Nat) : BoardPos :=
  ⟨pos.file + (k : Int) * t.file, pos.rank + (k : Int) * t.rank⟩

/-- The specification's predicate for claim C7: some piece of the attacker's
colour has a pseudo-legal move (per is_move_possible, ignoring king safety)
that captures on pos. Capturing moves are the piece's pseudo-legal moves onto
pos, except that for a pawn only the diagonal moves capture and for a king only
the one-step moves do (castling never captures). -/
def spec_pseudo_legal_capture (s : GameState) (pos : BoardPos) (attacker : Player) : Bool :=
  allSquares.any fun q =>
    let p := get_piece s q
    decide (p.type ≠ .Empty) && decide (p.player = attacker) &&
    is_move_possible s ⟨q, pos⟩ &&
    (match p.type with
     | .Pawn => decide (q.file ≠ pos.file)
     | .King => decide ((q.file - pos.file).natAbs ≤ 1 ∧ (q.rank - pos.rank).natAbs ≤ 1)
     | _ => true)

/-- q lies on one of the eight queen rays from pos with every strictly
intermediate square empty (the way the detector's ray scan treats a king). -/
def king_on_clear_ray (s : GameState) (pos q : BoardPos) : Bool :=
  QUEEN_DIRECTIONS.any fun t =>
    (List.range 8).any fun k0 =>
      decide (q = stepN pos t (k0 + 1)) &&
      (List.range k0).all fun j => decide ((get_piece s (stepN pos t (j + 1))).type = .Empty)

/-- The amended characterization of is_piece_attacked for claim C7: some
attacker piece at q such that: a king lies on a clear ray from pos (at any
distance, matching the code); a pawn has a pseudo-legal diagonal move onto pos;
any other piece has a pseudo-legal move onto pos. -/
def amended_attack_characterization (s : GameState) (pos : BoardPos) (attacker : Player) : Bool :=
  allSquares.any fun q =>
    let p := get_piece s q
    decide (p.type ≠ .Empty) && decide (p.player = attacker) &&
    (if p.type = .King then king_on_clear_ray s pos q
     else if p.type = .Pawn then is_move_possible s ⟨q, pos⟩ && decide (q.file ≠ pos.file)
     else is_move_possible s ⟨q, pos⟩)

/-- A board built from an association list of occupied squares; all other
squares hold the zero-initialised empty piece (Empty, White), as a memset
board does in C. -/
def board_of : List (BoardPos × Piece) → BoardPos → Piece
  | [], _ => ⟨.Empty, .WhitePlayer⟩
  | (p, pc) :: rest, pos => if pos = p then pc else board_of rest pos

/-- A position refuting claim C7 inside its natural scope: the attacked square
(0,0) holds a black pawn and the only white piece is a king three squares up
the file on (0,3). -/
def state_attack_cx : GameState :=
  { board := board_of [(⟨0, 0⟩, ⟨.Pawn, .BlackPlayer⟩), (⟨0, 3⟩, ⟨.King, .WhitePlayer⟩)],
    white_to_move := true,
    enpassant_target_white := -1,
    enpassant_target_black := -1,
    white_castlert_left := false,
    white_castlert_right := false,
    black_castlert_left := false,
    black_castlert_right := false,
    white_king := ⟨0, 3⟩,
    black_king := ⟨7, 7⟩,
    white_king_in_check := false,
    black_king_in_check := false,
    move_count := 20,
    piece_list_white := [⟨0, 3⟩] ++ List.replicate 15 NULL_BOARDPOS,
    piece_list_black := [⟨0, 0⟩] ++ List.replicate 15 NULL_BOARDPOS,
    hash := 0 }

/-! ## Concrete fixtures for witnesses and counterexamples -/

/-- A position in which white can capture en passant: white pawn e5 (4,3),
black pawn d5 (3,3) that just double-pushed (white's en-passant target file 3),
kings far apart on (4,7) and (0,0). -/
def state_ep : GameState :=
  { board := board_of [(⟨4, 3⟩, ⟨.Pawn, .WhitePlayer⟩), (⟨3, 3⟩, ⟨.Pawn, .BlackPlayer⟩),
                       (⟨4, 7⟩, ⟨.King, .WhitePlayer⟩), (⟨0, 0⟩, ⟨.King, .BlackPlayer⟩)],
    white_to_move := true,
    enpassant_target_white := 3,
    enpassant_target_black := -1,
    white_castlert_left := false,
    white_castlert_right := false,
    black_castlert_left := false,
    black_castlert_right := false,
    white_king := ⟨4, 7⟩,
    black_king := ⟨0, 0⟩,
    white_king_in_check := false,
    black_king_in_check := false,
    move_count := 6,
    piece_list_white := [⟨4, 7⟩, ⟨4, 3⟩] ++ List.replicate 14 NULL_BOARDPOS,
    piece_list_black := [⟨0, 0⟩, ⟨3, 3⟩] ++ List.replicate 14 NULL_BOARDPOS,
    hash := 0 }

/-- The en-passant capture in state_ep: white pawn (4,3) takes to (3,2). -/
def move_ep : Move := ⟨⟨4, 3⟩, ⟨3, 2⟩⟩

/-- A position in which the white pawn on (1,1) can capture the black rook
standing on its starting square (0,0); all four castling rights are set. -/
def state_pawn_takes_rook : GameState :=
  { board := board_of [(⟨1, 1⟩, ⟨.Pawn, .WhitePlayer⟩), (⟨0, 0⟩, ⟨.Rook, .BlackPlayer⟩),
                       (⟨4, 7⟩, ⟨.King, .WhitePlayer⟩), (⟨4, 0⟩, ⟨.King, .BlackPlayer⟩)],
    white_to_move := true,
    enpassant_target_white := -1,
    enpassant_target_black := -1,
    white_castlert_left := true,
    white_castlert_right := true,
    black_castlert_left := true,
    black_castlert_right := true,
    white_king := ⟨4, 7⟩,
    black_king := ⟨4, 0⟩,
    white_king_in_check := false,
    black_king_in_check := false,
    move_count := 10,
    piece_list_white := [⟨4, 7⟩, ⟨1, 1⟩] ++ List.replicate 14 NULL_BOARDPOS,
    piece_list_black := [⟨4, 0⟩, ⟨0, 0⟩] ++ List.replicate 14 NULL_BOARDPOS,
    hash := 0 }

/-- A small position for move-ordering witnesses: white king (4,7), white pawn
(3,6), black king (0,0); white to move, no castling rights, hash 42. -/
def state_ordering : GameState :=
  { board := board_of [(⟨4, 7⟩, ⟨.King, .WhitePlayer⟩), (⟨3, 6⟩, ⟨.Pawn, .WhitePlayer⟩),
                       (⟨0, 0⟩, ⟨.King, .BlackPlayer⟩)],
    white_to_move := true,
    enpassant_target_white := -1,
    enpassant_target_black := -1,
    white_castlert_left := false,
    white_castlert_right := false,
    black_castlert_left := false,
    black_castlert_right := false,
    white_king := ⟨4, 7⟩,
    black_king := ⟨0, 0⟩,
    white_king_in_check := false,
    black_king_in_check := false,
    move_count := 4,
    piece_list_white := [⟨4, 7⟩, ⟨3, 6⟩] ++ List.replicate 14 NULL_BOARDPOS,
    piece_list_black := [⟨0, 0⟩] ++ List.replicate 15 NULL_BOARDPOS,
    hash := 42 }

/-- A table whose every slot stores hash 42 at depth 3 with the legal pawn
double push (3,6)-(3,4) as best move. -/
def tt_pv_legal : TPTable :=
  ⟨fun _ => ⟨42, ⟨⟨3, 6⟩, ⟨3, 4⟩⟩, 3, 0, .EntryTypeExact⟩, 0⟩

/-- A table whose every slot stores hash 42 at depth 3 with a best move
(0,7)-(0,5) that is not legal in state_ordering (no piece stands on (0,7)). -/
def tt_pv_foreign : TPTable :=
  ⟨fun _ => ⟨42, ⟨⟨0, 7⟩, ⟨0, 5⟩⟩, 3, 0, .EntryTypeExact⟩, 0⟩

/-- An opening book with one item: the hash of state_ordering mapping to the
pawn push (3,6)-(3,5), which is legal there. -/
def book_fixture : List OpeningItem := [⟨42, [⟨⟨3, 6⟩, ⟨3, 5⟩⟩]⟩]

/-- A table entry with hash 1 and depth 5, aimed at an empty slot. -/
def fixture_entry1 : TranspositionEntry :=
  ⟨1, ⟨NULL_BOARDPOS, NULL_BOARDPOS⟩, 5, 0, .EntryTypeExact⟩

/-- A table entry with hash 7 and depth 3. -/
def fixture_entry7 : TranspositionEntry :=
  ⟨7, ⟨NULL_BOARDPOS, NULL_BOARDPOS⟩, 3, 0, .EntryTypeExact⟩

/-! # Theorems -/

/-- Behaviour of tptable_set_protected_hash at the protected slot: afterwards
the register holds the new hash and the slot stores that hash. -/
theorem set_protected_hash_register_and_slot (t : TPTable) (H : Nat) :
    (tptable_set_protected_hash t H).protected_hash = H ∧
    ((tptable_set_protected_hash t H).table (H % TRANSPOSITION_TABLE_SIZE)).hash = H := by
  simp only [tptable_set_protected_hash]
  by_cases h : (t.table (H % TRANSPOSITION_TABLE_SIZE)).hash = H
  · rw [if_neg (not_not_intro h)]
    exact ⟨rfl, h⟩
  · rw [if_pos h]
    refine ⟨rfl, ?_⟩
    simp

/-- One tptable_put with a foreign hash can change neither the protected-hash
register nor the protected slot, provided the slot currently stores the
protected hash. -/
theorem tptable_put_preserves_protected_slot (t : TPTable) (e : TranspositionEntry)
    (hslot : (t.table (t.protected_hash % TRANSPOSITION_TABLE_SIZE)).hash = t.protected_hash)
    (he : e.hash ≠ t.protected_hash) :
    (tptable_put t e).protected_hash = t.protected_hash ∧
    (tptable_put t e).table (t.protected_hash % TRANSPOSITION_TABLE_SIZE) =
      t.table (t.protected_hash % TRANSPOSITION_TABLE_SIZE) := by
  simp only [tptable_put]
  split_ifs with hcond
  · have hne : t.protected_hash % TRANSPOSITION_TABLE_SIZE ≠
        e.hash % TRANSPOSITION_TABLE_SIZE := by
      intro heq
      rw [← heq] at hcond
      rcases hcond with ⟨h1, _⟩ | ⟨h1, _⟩
      · exact h1 hslot
      · exact he (by rw [← h1, hslot])
    exact ⟨rfl, if_neg hne⟩
  · exact ⟨rfl, rfl⟩

/-- Folding any sequence of puts whose hashes all differ from the protected
hash leaves the protected slot untouched, given the protected-slot invariant. -/
theorem foldl_tptable_put_preserves_protected_slot (H : Nat) :
    ∀ (puts : List TranspositionEntry) (t : TPTable),
    t.protected_hash = H →
    (t.table (H % TRANSPOSITION_TABLE_SIZE)).hash = H →
    (∀ e ∈ puts, e.hash ≠ H) →
    (puts.foldl tptable_put t).table (H % TRANSPOSITION_TABLE_SIZE) =
      t.table (H % TRANSPOSITION_TABLE_SIZE) := by
  intro puts
  induction puts with
  | nil => intro t _ _ _; rfl
  | cons e rest ih =>
      intro t hprot hslot hne
      have he : e.hash ≠ t.protected_hash := by
        rw [hprot]; exact hne e (List.mem_cons_self e rest)
      have hstep := tptable_put_preserves_protected_slot t e
        (by rw [hprot]; exact hslot) he
      have hstep1 : (tptable_put t e).protected_hash = H := by rw [hstep.1, hprot]
      have hme : (tptable_put t e).table (H % TRANSPOSITION_TABLE_SIZE) =
          t.table (H % TRANSPOSITION_TABLE_SIZE) := by
        have h2 := hstep.2
        rw [hprot] at h2
        exact h2
      have hslot1 : ((tptable_put t e).table (H % TRANSPOSITION_TABLE_SIZE)).hash = H := by
        rw [hme]; exact hslot
      have hrest := ih (tptable_put t e) hstep1 hslot1
        (fun x hx => hne x (List.mem_cons_of_mem e hx))
      calc ((e :: rest).foldl tptable_put t).table (H % TRANSPOSITION_TABLE_SIZE)
          = (rest.foldl tptable_put (tptable_put t e)).table (H % TRANSPOSITION_TABLE_SIZE) := rfl
        _ = (tptable_put t e).table (H % TRANSPOSITION_TABLE_SIZE) := hrest
        _ = t.table (H % TRANSPOSITION_TABLE_SIZE) := hme

/-- Claim C2: after tptable_set_protected_hash(H), any following sequence of
tptable_put calls whose entries all have hash different from H (with no
intervening set_protected_hash or clear) leaves the entry stored at slot
H mod TRANSPOSITION_TABLE_SIZE unchanged: no put with a different hash can
displace the protected slot while H remains the protected hash. -/
theorem claim_C2_protected_slot_invariant (t : TPTable) (H : Nat)
    (puts : List TranspositionEntry) (hne : ∀ e ∈ puts, e.hash ≠ H) :
    (puts.foldl tptable_put (tptable_set_protected_hash t H)).table
        (H % TRANSPOSITION_TABLE_SIZE) =
      (tptable_set_protected_hash t H).table (H % TRANSPOSITION_TABLE_SIZE) := by
  have hinit := set_protected_hash_register_and_slot t H
  exact foldl_tptable_put_preserves_protected_slot H puts _ hinit.1 hinit.2 hne

/-- Witness for claim C2: protect hash 5 on the initial table, then put an
entry with hash 7; the protected slot is unchanged. -/
theorem claim_C2_witness :
    (∀ e ∈ [fixture_entry7], e.hash ≠ 5) ∧
    ([fixture_entry7].foldl tptable_put (tptable_set_protected_hash tptable_initial 5)).table
        (5 % TRANSPOSITION_TABLE_SIZE) =
      (tptable_set_protected_hash tptable_initial 5).table (5 % TRANSPOSITION_TABLE_SIZE) :=
  ⟨by decide,
   claim_C2_protected_slot_invariant tptable_initial 5 [fixture_entry7] (by decide)⟩

/-- Counterexample to claim C3 as stated: on the freshly initialised table
(protected hash still 0) the slot for hash 1 is empty (the all-zero entry), so
case (a) of the claimed replacement condition demands a write, yet tptable_put
leaves the table unchanged and the slot does not receive the entry. -/
theorem claim_C3_counterexample :
    tptable_put_spec_writes tptable_initial fixture_entry1 ∧
    tptable_put tptable_initial fixture_entry1 = tptable_initial ∧
    (tptable_put tptable_initial fixture_entry1).table
        (fixture_entry1.hash % TRANSPOSITION_TABLE_SIZE) ≠ fixture_entry1 := by
  refine ⟨Or.inl rfl, rfl, ?_⟩
  intro h
  exact absurd h (by decide)

/-- Claim C3 as amended: tptable_put stores the entry into its slot exactly when
(b) the slot holds the same hash with stored depth ≤ the new depth, or (c) the
slot holds a different hash that is not the currently protected hash; in every
other case (including an empty slot whose stored hash 0 equals the protected
hash) the table is left unchanged. -/
theorem claim_C3_amended_put_characterization (t : TPTable) (e : TranspositionEntry) :
    tptable_put t e =
      if tptable_put_amended_writes t e then
        { t with table := fun i =>
            if i = e.hash % TRANSPOSITION_TABLE_SIZE then e else t.table i }
      else t := by
  simp only [tptable_put, tptable_put_amended_writes]
  split_ifs with h1 h2 h2
  · rfl
  · exfalso
    apply h2
    rcases h1 with ⟨a, b⟩ | hsame
    · exact Or.inr ⟨fun hh => b hh.symm, a⟩
    · exact Or.inl hsame
  · exfalso
    apply h1
    rcases h2 with hsame | ⟨a, b⟩
    · exact Or.inr hsame
    · exact Or.inl ⟨b, fun hh => a hh.symm⟩
  · rfl

/-- Claim C10: while the protected-hash register still holds its initial value
0, a tptable_put whose entry has a nonzero hash aimed at an empty slot (stored
hash 0) leaves the table unchanged, so the empty-slot case cannot fire until a
protected hash has been set. -/
theorem claim_C10_no_store_on_empty_slot_before_protection
    (t : TPTable) (e : TranspositionEntry)
    (h0 : t.protected_hash = 0)
    (hslot : (t.table (e.hash % TRANSPOSITION_TABLE_SIZE)).hash = 0)
    (hne : e.hash ≠ 0) :
    tptable_put t e = t := by
  simp only [tptable_put]
  rw [if_neg]
  rintro (⟨h1, _⟩ | ⟨h1, _⟩)
  · exact h1 (by rw [hslot, h0])
  · exact hne (by rw [← h1, hslot])

/-- Witness for claim C10: on the initial table, putting an entry with hash 1
and depth 5 changes nothing. -/
theorem claim_C10_witness :
    tptable_initial.protected_hash = 0 ∧
    (tptable_initial.table (fixture_entry1.hash % TRANSPOSITION_TABLE_SIZE)).hash = 0 ∧
    fixture_entry1.hash ≠ 0 ∧
    tptable_put tptable_initial fixture_entry1 = tptable_initial :=
  ⟨rfl, rfl, by decide,
    claim_C10_no_store_on_empty_slot_before_protection tptable_initial fixture_entry1
      rfl rfl (by decide)⟩

/-- Counterexample to claim C4 as stated: in state_ep the white pawn on rank 3
plays a legal en-passant capture (diagonal onto an empty square), although the
claim requires a white en-passant mover to stand on rank 4. -/
theorem claim_C4_counterexample :
    (get_piece state_ep move_ep.from_pos).type = .Pawn ∧
    (get_piece state_ep move_ep.from_pos).player = .WhitePlayer ∧
    move_ep.from_pos.file ≠ move_ep.to_pos.file ∧
    (get_piece state_ep move_ep.to_pos).type = .Empty ∧
    move_ep.from_pos.rank = 3 ∧
    is_move_legal state_ep move_ep = true := by
  decide

/-- Claim C4 as amended (ranks swapped to match the code's top-origin ranks):
an en-passant capture (pawn moving diagonally onto an empty square) is accepted
by is_move_legal only if the mover's en-passant target file equals the
destination file, and the moving pawn stands on rank 3 when the mover is white
and on rank 4 when the mover is black; if any of these preconditions fails,
is_move_legal returns false. -/
theorem claim_C4_amended_enpassant_preconditions (s : GameState) (m : Move)
    (hp : (get_piece s m.from_pos).type = .Pawn)
    (hf : m.from_pos.file ≠ m.to_pos.file)
    (he : (get_piece s m.to_pos).type = .Empty)
    (hl : is_move_legal s m = true) :
    get_enpassant_target_file s (get_piece s m.from_pos).player = m.to_pos.file ∧
    ((get_piece s m.from_pos).player = .WhitePlayer → m.from_pos.rank = 3) ∧
    ((get_piece s m.from_pos).player = .BlackPlayer → m.from_pos.rank = 4) := by
  by_cases hc : ((get_piece s m.from_pos).player = .WhitePlayer ∧ m.from_pos.rank ≠ 3) ∨
      ((get_piece s m.from_pos).player = .BlackPlayer ∧ m.from_pos.rank ≠ 4) ∨
      get_enpassant_target_file s (get_piece s m.from_pos).player ≠ m.to_pos.file
  · exfalso
    cases hposs : is_move_possible s m with
    | false => rw [is_move_legal, hposs] at hl; simp at hl
    | true =>
        rw [is_move_legal, hposs] at hl
        simp only [Bool.false_eq_true, if_false, hp, hf, he, hc] at hl
        simp [he, hp, hc] at hl
        exact hf hl.2.1.1
  · push_neg at hc
    exact ⟨hc.2.2, hc.1, hc.2.1⟩

/-- Witness for the amended claim C4: the legal en-passant capture of state_ep
satisfies the corrected preconditions. -/
theorem claim_C4_witness :
    is_move_legal state_ep move_ep = true ∧
    (get_enpassant_target_file state_ep (get_piece state_ep move_ep.from_pos).player =
       move_ep.to_pos.file ∧
     ((get_piece state_ep move_ep.from_pos).player = .WhitePlayer → move_ep.from_pos.rank = 3) ∧
     ((get_piece state_ep move_ep.from_pos).player = .BlackPlayer → move_ep.from_pos.rank = 4)) :=
  ⟨by decide,
   claim_C4_amended_enpassant_preconditions state_ep move_ep
     (by decide) (by decide) (by decide) (by decide)⟩

/-- Claim C5 is contradicted by the code (code bug): the white pawn on (1,1)
captures the black rook standing on its starting square (0,0), yet black's
queenside castling availability stays set, because the rook-capture branch of
make_move sits in an else-if chain behind the pawn branch. The last conjunct
shows the capture really happened (the square now holds a white piece). -/
theorem claim_C5_code_bug_eval :
    get_piece state_pawn_takes_rook ⟨0, 0⟩ = ⟨.Rook, .BlackPlayer⟩ ∧
    ROOK_STARTING_POSITIONS_LEFT .BlackPlayer = ⟨0, 0⟩ ∧
    (get_piece state_pawn_takes_rook ⟨1, 1⟩).type = .Pawn ∧
    state_pawn_takes_rook.black_castlert_left = true ∧
    (make_move state_pawn_takes_rook ⟨⟨1, 1⟩, ⟨0, 0⟩⟩ false).black_castlert_left = true ∧
    (get_piece (make_move state_pawn_takes_rook ⟨⟨1, 1⟩, ⟨0, 0⟩⟩ false) ⟨0, 0⟩).player =
      .WhitePlayer := by
  decide

/-- With the waiting flag already cleared, the classification loop is a plain
stable partition of the moves into captures and quiet moves. -/
theorem classify_moves_false (s : GameState) (p : Player) (best : Move) :
    ∀ L : List Move,
    classify_moves s p best false L =
      (L.filter (is_capture_move s p), L.filter (fun m => ! is_capture_move s p m), false) := by
  intro L
  induction L with
  | nil => rfl
  | cons m rest ih =>
      rw [classify_moves]
      rw [if_neg (by simp)]
      rw [ih]
      by_cases hcap : is_capture_move s p m = true
      · simp [hcap, List.filter_cons]
      · simp only [Bool.not_eq_true] at hcap
        simp [hcap, List.filter_cons]

/-- If the principal-variation move never occurs in the list, the waiting flag
never fires and the loop is again a stable partition. -/
theorem classify_moves_not_mem (s : GameState) (p : Player) (best : Move) :
    ∀ (L : List Move) (w : Bool), best ∉ L →
    classify_moves s p best w L =
      (L.filter (is_capture_move s p), L.filter (fun m => ! is_capture_move s p m), w) := by
  intro L
  induction L with
  | nil => intro w _; rfl
  | cons m rest ih =>
      intro w hmem
      have hne : m ≠ best := fun h => hmem (h ▸ List.mem_cons_self m rest)
      rw [classify_moves]
      rw [if_neg (by simp [hne])]
      rw [ih w (fun h => hmem (List.mem_cons_of_mem m h))]
      by_cases hcap : is_capture_move s p m = true
      · simp [hcap, List.filter_cons]
      · simp only [Bool.not_eq_true] at hcap
        simp [hcap, List.filter_cons]

/-- If the principal-variation move occurs in the list and the waiting flag is
set, the loop skips exactly its first occurrence and partitions the rest. -/
theorem classify_moves_mem (s : GameState) (p : Player) (best : Move) :
    ∀ L : List Move, best ∈ L →
    classify_moves s p best true L =
      ((L.erase best).filter (is_capture_move s p),
       (L.erase best).filter (fun m => ! is_capture_move s p m), false) := by
  intro L
  induction L with
  | nil => intro h; exact absurd h (List.not_mem_nil best)
  | cons m rest ih =>
      intro hmem
      by_cases heq : m = best
      · rw [classify_moves, if_pos ⟨rfl, heq⟩]
        rw [classify_moves_false s p best rest]
        rw [List.erase_cons, if_pos (by simp [heq])]
      · have hmem1 : best ∈ rest := by
          rcases List.mem_cons.mp hmem with h | h
          · exact absurd h.symm heq
          · exact h
        have herase : (m :: rest).erase best = m :: rest.erase best := by
          rw [List.erase_cons]
          simp [heq]
        rw [classify_moves, if_neg (by simp [heq])]
        rw [ih hmem1, herase]
        by_cases hcap : is_capture_move s p m = true
        · simp [hcap, List.filter_cons]
        · simp only [Bool.not_eq_true] at hcap
          simp [hcap, List.filter_cons]

/-- Claim C6: when the transposition-table entry for the position's hash has
nonzero depth and a non-null best move that is one of the side-to-move's
generated legal moves, all_legal_moves_ordered returns that best move first,
followed by the capture moves in generation order, followed by the remaining
legal moves in generation order, with the best move deduplicated; the whole
list is a permutation of the generated legal moves. -/
theorem claim_C6_move_ordering_with_legal_pv (s : GameState) (tt : TPTable)
    (hd : (tptable_get tt s.hash).depth ≠ 0)
    (hm : (tptable_get tt s.hash).best_move.from_pos ≠ NULL_BOARDPOS)
    (hmem : (tptable_get tt s.hash).best_move ∈ gen_moves s (side_to_move s)) :
    all_legal_moves_ordered s (side_to_move s) tt =
      (tptable_get tt s.hash).best_move ::
        (((gen_moves s (side_to_move s)).erase (tptable_get tt s.hash).best_move).filter
            (is_capture_move s (side_to_move s)) ++
         ((gen_moves s (side_to_move s)).erase (tptable_get tt s.hash).best_move).filter
            (fun m => ! is_capture_move s (side_to_move s) m)) ∧
    List.Perm (all_legal_moves_ordered s (side_to_move s) tt)
      (gen_moves s (side_to_move s)) := by
  have hpvn : ((tptable_get tt s.hash).depth ≠ 0 ∧
      (tptable_get tt s.hash).best_move.from_pos ≠ NULL_BOARDPOS) := ⟨hd, hm⟩
  have heq : all_legal_moves_ordered s (side_to_move s) tt =
      (tptable_get tt s.hash).best_move ::
        (((gen_moves s (side_to_move s)).erase (tptable_get tt s.hash).best_move).filter
            (is_capture_move s (side_to_move s)) ++
         ((gen_moves s (side_to_move s)).erase (tptable_get tt s.hash).best_move).filter
            (fun m => ! is_capture_move s (side_to_move s) m)) := by
    rw [all_legal_moves_ordered]
    rw [decide_eq_true hpvn]
    rw [classify_moves_mem s (side_to_move s) (tptable_get tt s.hash).best_move
        (gen_moves s (side_to_move s)) hmem]
    simp [hpvn]
  refine ⟨heq, ?_⟩
  rw [heq]
  have h1 := List.filter_append_perm (is_capture_move s (side_to_move s))
    ((gen_moves s (side_to_move s)).erase (tptable_get tt s.hash).best_move)
  have h2 := List.perm_cons_erase hmem
  exact (h1.cons (tptable_get tt s.hash).best_move).trans h2.symm

/-- Claim C9: when the transposition-table entry has nonzero depth and a
non-null best move that is not among the generated legal moves, the stored best
move is still placed at index 0 and the returned list is one longer than the
generated legal-move list, so the result can contain a move that is not legal. -/
theorem claim_C9_move_ordering_with_foreign_pv (s : GameState) (tt : TPTable)
    (hd : (tptable_get tt s.hash).depth ≠ 0)
    (hm : (tptable_get tt s.hash).best_move.from_pos ≠ NULL_BOARDPOS)
    (hnot : (tptable_get tt s.hash).best_move ∉ gen_moves s (side_to_move s)) :
    all_legal_moves_ordered s (side_to_move s) tt =
      (tptable_get tt s.hash).best_move ::
        ((gen_moves s (side_to_move s)).filter (is_capture_move s (side_to_move s)) ++
         (gen_moves s (side_to_move s)).filter
            (fun m => ! is_capture_move s (side_to_move s) m)) ∧
    (all_legal_moves_ordered s (side_to_move s) tt).length =
      (gen_moves s (side_to_move s)).length + 1 ∧
    (all_legal_moves_ordered s (side_to_move s) tt).head? =
      some (tptable_get tt s.hash).best_move := by
  have hpvn : ((tptable_get tt s.hash).depth ≠ 0 ∧
      (tptable_get tt s.hash).best_move.from_pos ≠ NULL_BOARDPOS) := ⟨hd, hm⟩
  have heq : all_legal_moves_ordered s (side_to_move s) tt =
      (tptable_get tt s.hash).best_move ::
        ((gen_moves s (side_to_move s)).filter (is_capture_move s (side_to_move s)) ++
         (gen_moves s (side_to_move s)).filter
            (fun m => ! is_capture_move s (side_to_move s) m)) := by
    rw [all_legal_moves_ordered]
    rw [decide_eq_true hpvn]
    rw [classify_moves_not_mem s (side_to_move s) (tptable_get tt s.hash).best_move
        (gen_moves s (side_to_move s)) true hnot]
    simp [hpvn]
  refine ⟨heq, ?_, ?_⟩
  · rw [heq]
    have h1 := List.filter_append_perm (is_capture_move s (side_to_move s))
      (gen_moves s (side_to_move s))
    simp [h1.length_eq]
  · rw [heq]; rfl

/-- Witness for claim C6: in state_ordering with the pawn double push stored as
the table's best move, the hypotheses hold concretely and the ordered move list
has the stored move first. -/
theorem claim_C6_witness :
    ((tptable_get tt_pv_legal state_ordering.hash).depth ≠ 0 ∧
     (tptable_get tt_pv_legal state_ordering.hash).best_move.from_pos ≠ NULL_BOARDPOS ∧
     (tptable_get tt_pv_legal state_ordering.hash).best_move ∈
       gen_moves state_ordering (side_to_move state_ordering)) ∧
    (all_legal_moves_ordered state_ordering (side_to_move state_ordering) tt_pv_legal =
      (tptable_get tt_pv_legal state_ordering.hash).best_move ::
        (((gen_moves state_ordering (side_to_move state_ordering)).erase
            (tptable_get tt_pv_legal state_ordering.hash).best_move).filter
            (is_capture_move state_ordering (side_to_move state_ordering)) ++
         ((gen_moves state_ordering (side_to_move state_ordering)).erase
            (tptable_get tt_pv_legal state_ordering.hash).best_move).filter
            (fun m => ! is_capture_move state_ordering (side_to_move state_ordering) m)) ∧
     List.Perm (all_legal_moves_ordered state_ordering (side_to_move state_ordering) tt_pv_legal)
       (gen_moves state_ordering (side_to_move state_ordering))) :=
  ⟨⟨by decide, by decide, by decide⟩,
   claim_C6_move_ordering_with_legal_pv state_ordering tt_pv_legal
     (by decide) (by decide) (by decide)⟩

/-- Witness for claim C9: with a stored best move that is not generated for
state_ordering, the ordered list still starts with it and is one longer than
the generated move list. -/
theorem claim_C9_witness :
    ((tptable_get tt_pv_foreign state_ordering.hash).depth ≠ 0 ∧
     (tptable_get tt_pv_foreign state_ordering.hash).best_move.from_pos ≠ NULL_BOARDPOS ∧
     (tptable_get tt_pv_foreign state_ordering.hash).best_move ∉
       gen_moves state_ordering (side_to_move state_ordering)) ∧
    ((all_legal_moves_ordered state_ordering (side_to_move state_ordering) tt_pv_foreign).length =
       (gen_moves state_ordering (side_to_move state_ordering)).length + 1 ∧
     (all_legal_moves_ordered state_ordering (side_to_move state_ordering) tt_pv_foreign).head? =
       some (tptable_get tt_pv_foreign state_ordering.hash).best_move) :=
  ⟨⟨by decide, by decide, by decide⟩,
   ⟨(claim_C9_move_ordering_with_foreign_pv state_ordering tt_pv_foreign
       (by decide) (by decide) (by decide)).2.1,
    (claim_C9_move_ordering_with_foreign_pv state_ordering tt_pv_foreign
       (by decide) (by decide) (by decide)).2.2⟩⟩

/-- Unfolding lemma: negamax is its transposition-table block followed by the
rest of the function, with the child being the recursive call at depth - 1. -/
theorem negamax_eq_entry (depth : Nat) (s : GameState) (a b : Int) (te : Bool) (tt : TPTable) :
    negamax depth s a b te tt = negamax_entry (negamax_child depth te) depth s a b te tt := by
  cases depth <;> rfl

/-- Claim C1: when the transposition-table entry for the state's hash has
nonzero depth that is at least the current search depth, negamax returns the
entry's value immediately on an Exact entry; on a Lower entry it raises alpha
to max(alpha, value) and on an Upper entry it lowers beta to min(beta, value),
returning the entry's value if the adjusted alpha ≥ beta and otherwise
continuing the rest of the search with the adjusted window (and the original
alpha kept as start_alpha for the bound classification). -/
theorem claim_C1_negamax_tt_block (depth : Nat) (s : GameState) (alpha beta : Int)
    (te : Bool) (tt : TPTable)
    (hd : (tptable_get tt s.hash).depth ≠ 0)
    (hge : depth ≤ (tptable_get tt s.hash).depth) :
    ((tptable_get tt s.hash).type = .EntryTypeExact →
       negamax depth s alpha beta te tt = ((tptable_get tt s.hash).value, tt)) ∧
    ((tptable_get tt s.hash).type = .EntryTypeLower →
       (max alpha (tptable_get tt s.hash).value ≥ beta →
          negamax depth s alpha beta te tt = ((tptable_get tt s.hash).value, tt)) ∧
       (max alpha (tptable_get tt s.hash).value < beta →
          negamax depth s alpha beta te tt =
            negamax_rest (negamax_child depth te) depth s alpha
              (max alpha (tptable_get tt s.hash).value) beta te tt
              (tptable_get tt s.hash))) ∧
    ((tptable_get tt s.hash).type = .EntryTypeUpper →
       (alpha ≥ min beta (tptable_get tt s.hash).value →
          negamax depth s alpha beta te tt = ((tptable_get tt s.hash).value, tt)) ∧
       (alpha < min beta (tptable_get tt s.hash).value →
          negamax depth s alpha beta te tt =
            negamax_rest (negamax_child depth te) depth s alpha alpha
              (min beta (tptable_get tt s.hash).value) te tt
              (tptable_get tt s.hash))) := by
  have hrw := negamax_eq_entry depth s alpha beta te tt
  refine ⟨?_, ?_, ?_⟩
  · intro hty
    rw [hrw]
    simp only [negamax_entry]
    rw [if_pos ⟨hd, hge⟩, if_pos hty]
  · intro hty
    constructor
    · intro hcut
      rw [hrw]
      simp only [negamax_entry, hty]
      rw [if_pos ⟨hd, hge⟩]
      rw [if_neg (fun h => EntryType.noConfusion h)]
      simp only [if_true]
      rw [if_neg (fun h => EntryType.noConfusion h)]
      rw [if_pos hcut]
    · intro hcont
      rw [hrw]
      simp only [negamax_entry, hty]
      rw [if_pos ⟨hd, hge⟩]
      rw [if_neg (fun h => EntryType.noConfusion h)]
      simp only [if_true]
      rw [if_neg (fun h => EntryType.noConfusion h)]
      rw [if_neg (not_le.mpr hcont)]
  · intro hty
    constructor
    · intro hcut
      rw [hrw]
      simp only [negamax_entry, hty]
      rw [if_pos ⟨hd, hge⟩]
      rw [if_neg (fun h => EntryType.noConfusion h)]
      rw [if_neg (fun h => EntryType.noConfusion h)]
      simp only [if_true]
      rw [if_pos hcut]
    · intro hcont
      rw [hrw]
      simp only [negamax_entry, hty]
      rw [if_pos ⟨hd, hge⟩]
      rw [if_neg (fun h => EntryType.noConfusion h)]
      rw [if_neg (fun h => EntryType.noConfusion h)]
      simp only [if_true]
      rw [if_neg (not_le.mpr hcont)]

/-- Witness for claim C1: a concrete table hit of depth 3 with an Exact entry at
search depth 2 makes negamax return the stored value at once. -/
theorem claim_C1_witness :
    (tptable_get tt_pv_legal state_ordering.hash).depth ≠ 0 ∧
    2 ≤ (tptable_get tt_pv_legal state_ordering.hash).depth ∧
    (tptable_get tt_pv_legal state_ordering.hash).type = .EntryTypeExact ∧
    negamax 2 state_ordering 1 5 false tt_pv_legal =
      ((tptable_get tt_pv_legal state_ordering.hash).value, tt_pv_legal) :=
  ⟨by decide, by decide, by decide,
   (claim_C1_negamax_tt_block 2 state_ordering 1 5 false tt_pv_legal
      (by decide) (by decide)).1 (by decide)⟩

/-- Claim C8: with ply count ≤ 5 and a book hit for the root hash, generate_move
protects the root hash and then: if the randomly chosen book move is legal, it
performs a tptable_put of an entry at the root hash carrying that move with
depth CHAR_MAX and kind Exact, dispatching no search task (and when the
protected slot's stored depth is at most CHAR_MAX, the entry is really stored
and readable back); if the chosen move is illegal, the book is skipped and the
iterative-deepening tasks for depths 1..MAX_SEARCH_DEPTH are dispatched with
the table otherwise unchanged. -/
theorem claim_C8_generate_move_book_phase (s : GameState) (book : List OpeningItem)
    (rand_val : Nat) (tt : TPTable) (item : OpeningItem)
    (hply : s.move_count ≤ 5)
    (hfind : find_opening_by_hash book s.hash = some item) :
    (is_move_legal s (item.moves.getD (rand_val % item.moves.length)
        ⟨NULL_BOARDPOS, NULL_BOARDPOS⟩) = true →
      generate_move s book rand_val tt =
        ⟨tptable_put (tptable_set_protected_hash tt s.hash)
           ⟨s.hash,
            item.moves.getD (rand_val % item.moves.length) ⟨NULL_BOARDPOS, NULL_BOARDPOS⟩,
            CHAR_MAX, 0, .EntryTypeExact⟩, []⟩) ∧
    (is_move_legal s (item.moves.getD (rand_val % item.moves.length)
        ⟨NULL_BOARDPOS, NULL_BOARDPOS⟩) = true →
     (tptable_get (tptable_set_protected_hash tt s.hash) s.hash).depth ≤ CHAR_MAX →
      tptable_get (generate_move s book rand_val tt).tt s.hash =
        ⟨s.hash,
         item.moves.getD (rand_val % item.moves.length) ⟨NULL_BOARDPOS, NULL_BOARDPOS⟩,
         CHAR_MAX, 0, .EntryTypeExact⟩) ∧
    (is_move_legal s (item.moves.getD (rand_val % item.moves.length)
        ⟨NULL_BOARDPOS, NULL_BOARDPOS⟩) = false →
      generate_move s book rand_val tt =
        ⟨tptable_set_protected_hash tt s.hash,
         (List.range MAX_SEARCH_DEPTH).map fun d => d + 1⟩) := by
  have hmain : ∀ b : Bool,
      is_move_legal s (item.moves.getD (rand_val % item.moves.length)
        ⟨NULL_BOARDPOS, NULL_BOARDPOS⟩) = b →
      generate_move s book rand_val tt =
        (if b then
          ⟨tptable_put (tptable_set_protected_hash tt s.hash)
             ⟨s.hash,
              item.moves.getD (rand_val % item.moves.length) ⟨NULL_BOARDPOS, NULL_BOARDPOS⟩,
              CHAR_MAX, 0, .EntryTypeExact⟩, []⟩
        else
          ⟨tptable_set_protected_hash tt s.hash,
           (List.range MAX_SEARCH_DEPTH).map fun d => d + 1⟩) := by
    intro b hb
    cases b
    · simp only [generate_move, hfind, hply, if_true, if_pos hply]
      rw [if_neg (by rw [hb]; exact Bool.false_ne_true)]
      rfl
    · simp only [generate_move, hfind, hply, if_true, if_pos hply]
      rw [if_pos hb]
  refine ⟨fun hleg => by simpa using hmain true hleg, ?_, fun hill => by simpa using hmain false hill⟩
  intro hleg hdep
  have heq := hmain true hleg
  simp only [if_true] at heq
  rw [heq]
  have hslot := (set_protected_hash_register_and_slot tt s.hash).2
  have hget1 : tptable_get (tptable_set_protected_hash tt s.hash) s.hash =
      (tptable_set_protected_hash tt s.hash).table (s.hash % TRANSPOSITION_TABLE_SIZE) := by
    rw [tptable_get, if_pos hslot]
  rw [hget1] at hdep
  simp only [tptable_put]
  rw [if_pos (Or.inr ⟨hslot, hdep⟩)]
  rw [tptable_get]
  simp

/-- Witness for claim C8: in state_ordering (ply count 4, hash 42) with the one
item book, the chosen book move is legal and generate_move stores it via
tptable_put without dispatching any search depth. -/
theorem claim_C8_witness :
    state_ordering.move_count ≤ 5 ∧
    find_opening_by_hash book_fixture state_ordering.hash = some ⟨42, [⟨⟨3, 6⟩, ⟨3, 5⟩⟩]⟩ ∧
    generate_move state_ordering book_fixture 0 tptable_initial =
      ⟨tptable_put (tptable_set_protected_hash tptable_initial state_ordering.hash)
         ⟨state_ordering.hash,
          (⟨42, [⟨⟨3, 6⟩, ⟨3, 5⟩⟩]⟩ : OpeningItem).moves.getD
            (0 % (⟨42, [⟨⟨3, 6⟩, ⟨3, 5⟩⟩]⟩ : OpeningItem).moves.length)
            ⟨NULL_BOARDPOS, NULL_BOARDPOS⟩,
          CHAR_MAX, 0, .EntryTypeExact⟩, []⟩ :=
  ⟨by decide, by decide,
   (claim_C8_generate_move_book_phase state_ordering book_fixture 0 tptable_initial
      ⟨42, [⟨⟨3, 6⟩, ⟨3, 5⟩⟩]⟩ (by decide) (by decide)).1 (by decide)⟩

/-! ## Helper lemmas for the attack-detection claim -/

theorem boardPos_mk_file (a b : Int) : (BoardPos.mk a b).file = a := rfl

theorem boardPos_mk_rank (a b : Int) : (BoardPos.mk a b).rank = b := rfl

theorem onBoard_mk (a b : Int) :
    onBoard ⟨a, b⟩ ↔ 0 ≤ a ∧ a ≤ 7 ∧ 0 ≤ b ∧ b ≤ 7 := Iff.rfl

theorem other_player_ne (p : Player) : other_player p ≠ p := by
  cases p <;> simp [other_player]

theorem onBoard_ne_null {c : BoardPos} (h : onBoard c) : c ≠ NULL_BOARDPOS := by
  intro he
  obtain ⟨h1, h2, h3, h4⟩ := h
  rw [he] at h2
  simp only [NULL_BOARDPOS, boardPos_mk_file] at h2
  omega

theorem mem_allSquares (q : BoardPos) : q ∈ allSquares ↔ onBoard q := by
  obtain ⟨qf, qr⟩ := q
  simp only [allSquares, List.mem_flatMap, List.mem_map, List.mem_range]
  rw [onBoard_mk]
  constructor
  · rintro ⟨f, hf, r, hr, heq⟩
    rw [BoardPos.mk.injEq] at heq
    omega
  · rintro ⟨h1, h2, h3, h4⟩
    refine ⟨qf.toNat, by omega, qr.toNat, by omega, ?_⟩
    rw [BoardPos.mk.injEq]
    constructor <;> omega

theorem stepN_zero (pos t : BoardPos) : stepN pos t 0 = pos := by
  simp only [stepN, Nat.cast_zero, zero_mul, add_zero]

theorem boardpos_add_stepN (pos t : BoardPos) (k : Nat) :
    boardpos_add (stepN pos t k) t =
      if onBoard (stepN pos t (k + 1)) then stepN pos t (k + 1) else NULL_BOARDPOS := by
  have e1 : (stepN pos t k).file + t.file = (stepN pos t (k + 1)).file := by
    simp only [stepN, boardPos_mk_file]
    push_cast
    ring
  have e2 : (stepN pos t k).rank + t.rank = (stepN pos t (k + 1)).rank := by
    simp only [stepN, boardPos_mk_rank]
    push_cast
    ring
  simp only [boardpos_add, boardPos_mk_file, boardPos_mk_rank]
  rw [e1, e2]
  by_cases hob : onBoard (stepN pos t (k + 1))
  · have hnc : ¬((stepN pos t (k + 1)).file > 7 ∨ (stepN pos t (k + 1)).rank > 7 ∨
        (stepN pos t (k + 1)).file < 0 ∨ (stepN pos t (k + 1)).rank < 0) := by
      obtain ⟨a1, a2, a3, a4⟩ := hob
      omega
    rw [if_neg hnc, if_pos hob]
  · have hc : (stepN pos t (k + 1)).file > 7 ∨ (stepN pos t (k + 1)).rank > 7 ∨
        (stepN pos t (k + 1)).file < 0 ∨ (stepN pos t (k + 1)).rank < 0 := by
      by_contra hcon
      push_neg at hcon
      exact hob ⟨by omega, by omega, by omega, by omega⟩
    rw [if_pos hc, if_neg hob]

theorem queen_dir_bound {t : BoardPos} (ht : t ∈ QUEEN_DIRECTIONS) {pos : BoardPos}
    (hpos : onBoard pos) {k : Nat} (hk : onBoard (stepN pos t k)) : k ≤ 7 := by
  obtain ⟨p1, p2, p3, p4⟩ := hpos
  obtain ⟨a1, a2, a3, a4⟩ := hk
  simp only [stepN, boardPos_mk_file, boardPos_mk_rank] at a1 a2 a3 a4
  fin_cases ht <;>
    (simp only [boardPos_mk_file, boardPos_mk_rank] at a1 a2 a3 a4
     omega)

theorem queen_dir_off_stays {t : BoardPos} (ht : t ∈ QUEEN_DIRECTIONS) {pos : BoardPos}
    (hpos : onBoard pos) {k m : Nat} (hk : ¬ onBoard (stepN pos t k)) (hkm : k ≤ m) :
    ¬ onBoard (stepN pos t m) := by
  obtain ⟨p1, p2, p3, p4⟩ := hpos
  fin_cases ht <;>
    (intro hm
     apply hk
     obtain ⟨a1, a2, a3, a4⟩ := hm
     simp only [stepN, boardPos_mk_file, boardPos_mk_rank] at a1 a2 a3 a4
     refine ⟨?_, ?_, ?_, ?_⟩ <;>
       (simp only [stepN, boardPos_mk_file, boardPos_mk_rank]
        omega))

theorem all_range_iff (n : Nat) (f : Nat → Bool) :
    ((List.range n).all f = true) ↔ ∀ j, j < n → f j = true := by
  rw [List.all_eq_true]
  constructor
  · intro h j hj
    exact h j (List.mem_range.mpr hj)
  · intro h j hj
    exact h j (List.mem_range.mp hj)

theorem mem_intRange (lo hi i : Int) : i ∈ intRange lo hi ↔ lo ≤ i ∧ i < hi := by
  simp only [intRange, List.mem_map, List.mem_range]
  constructor
  · rintro ⟨n, hn, rfl⟩
    omega
  · rintro ⟨h1, h2⟩
    exact ⟨(i - lo).toNat, by omega, by omega⟩

theorem all_intRange_iff (lo hi : Int) (f : Int → Bool) :
    ((intRange lo hi).all f = true) ↔ ∀ i, lo ≤ i → i < hi → f i = true := by
  rw [List.all_eq_true]
  constructor
  · intro h i h1 h2
    exact h i ((mem_intRange lo hi i).mpr ⟨h1, h2⟩)
  · intro h i hmem
    obtain ⟨h1, h2⟩ := (mem_intRange lo hi i).mp hmem
    exact h i h1 h2

/-- Characterization of the ray-scan while loop: started at step k of a ray
with enough fuel, it returns true iff some step m ≥ k is the first occupied
square along the ray and holds a matching piece of the attacker's colour. -/
theorem ray_attack_loop_iff (s : GameState) (a : Player) {t : BoardPos}
    (ht : t ∈ QUEEN_DIRECTIONS) {pos : BoardPos} (hpos : onBoard pos) :
    ∀ (fuel k : Nat), 1 ≤ k → 9 ≤ fuel + k →
    (ray_attack_loop s a t fuel
        (if onBoard (stepN pos t k) then stepN pos t k else NULL_BOARDPOS) = true ↔
      ∃ m : Nat, k ≤ m ∧ onBoard (stepN pos t m) ∧
        (∀ j, k ≤ j → j < m → (get_piece s (stepN pos t j)).type = .Empty) ∧
        (get_piece s (stepN pos t m)).type ≠ .Empty ∧
        correct_ray_piece t (get_piece s (stepN pos t m)).type = true ∧
        (get_piece s (stepN pos t m)).player = a) := by
  intro fuel
  induction fuel with
  | zero =>
      intro k hk1 hk9
      have hoff : ¬ onBoard (stepN pos t k) := by
        intro hob
        have := queen_dir_bound ht hpos hob
        omega
      rw [if_neg hoff]
      rw [ray_attack_loop]
      constructor
      · intro h
        exact absurd h (by simp)
      · rintro ⟨m, hm, h2, _⟩
        exact absurd h2 (queen_dir_off_stays ht hpos hoff hm)
  | succ fuel ih =>
      intro k hk1 hk9
      by_cases hob : onBoard (stepN pos t k)
      · rw [if_pos hob]
        rw [ray_attack_loop]
        rw [if_neg (onBoard_ne_null hob)]
        by_cases hemp : (get_piece s (stepN pos t k)).type = .Empty
        · rw [if_neg (by simp [hemp])]
          rw [boardpos_add_stepN]
          rw [ih (k + 1) (by omega) (by omega)]
          constructor
          · rintro ⟨m, hm, h2, h3, h4, h5, h6⟩
            refine ⟨m, by omega, h2, ?_, h4, h5, h6⟩
            intro j hj1 hj2
            by_cases hjk : j = k
            · rw [hjk]; exact hemp
            · exact h3 j (by omega) hj2
          · rintro ⟨m, hm, h2, h3, h4, h5, h6⟩
            have hmk : m ≠ k := by
              intro he
              rw [he] at h4
              exact h4 hemp
            refine ⟨m, by omega, h2, ?_, h4, h5, h6⟩
            intro j hj1 hj2
            exact h3 j (by omega) hj2
        · rw [if_pos hemp]
          constructor
          · intro h
            rw [Bool.and_eq_true, decide_eq_true_eq] at h
            exact ⟨k, le_refl k, hob, fun j hj1 hj2 => absurd hj2 (by omega),
                   hemp, h.1, h.2⟩
          · rintro ⟨m, hm, h2, h3, h4, h5, h6⟩
            have hmk : m = k := by
              by_contra hne
              exact hemp (h3 k (le_refl k) (by omega))
            rw [hmk] at h5 h6
            rw [Bool.and_eq_true, decide_eq_true_eq]
            exact ⟨h5, h6⟩
      · rw [if_neg hob]
        rw [ray_attack_loop]
        rw [if_pos rfl]
        constructor
        · intro h
          exact absurd h (by simp)
        · rintro ⟨m, hm, h2, _⟩
          exact absurd h2 (queen_dir_off_stays ht hpos hob hm)

/-- Translation between the vertical path loop of is_move_possible (moving from
stepN pos (0,sg) m to pos) and emptiness of the strictly intermediate ray
squares. -/
theorem vert_path_iff (s : GameState) (pos : BoardPos) (sg : Int)
    (hsg : sg = 1 ∨ sg = -1) (m : Nat) (hm : 1 ≤ m) :
    (((intRange (min (stepN pos ⟨0, sg⟩ m).rank pos.rank + 1)
                (max (stepN pos ⟨0, sg⟩ m).rank pos.rank)).all fun i =>
        decide ((get_piece s ⟨(stepN pos ⟨0, sg⟩ m).file, i⟩).type = .Empty)) = true) ↔
    (∀ j : Nat, 1 ≤ j → j < m → (get_piece s (stepN pos ⟨0, sg⟩ j)).type = .Empty) := by
  have hf : ∀ n : Nat, (stepN pos ⟨0, sg⟩ n).file = pos.file := by
    intro n
    simp [stepN, boardPos_mk_file]
  have hr : ∀ n : Nat, (stepN pos ⟨0, sg⟩ n).rank = pos.rank + (n : Int) * sg := by
    intro n
    simp [stepN, boardPos_mk_rank]
  rw [all_intRange_iff]
  constructor
  · intro h j hj1 hjm
    have hsq : (⟨(stepN pos ⟨0, sg⟩ m).file, pos.rank + (j : Int) * sg⟩ : BoardPos) =
        stepN pos ⟨0, sg⟩ j := by
      rw [BoardPos.mk.injEq, hf m, hf j, hr j]
      exact ⟨rfl, rfl⟩
    have hb := h (pos.rank + (j : Int) * sg) ?_ ?_
    · simp only [decide_eq_true_eq] at hb
      rw [hsq] at hb
      exact hb
    · rw [hr m]
      rcases hsg with rfl | rfl <;> omega
    · rw [hr m]
      rcases hsg with rfl | rfl <;> omega
  · intro h i hlo hhi
    rw [hr m] at hlo hhi
    simp only [decide_eq_true_eq]
    rcases hsg with rfl | rfl
    · have hj := h (i - pos.rank).toNat (by omega) (by omega)
      have hsq : stepN pos ⟨0, (1 : Int)⟩ ((i - pos.rank).toNat) =
          ⟨(stepN pos ⟨0, (1 : Int)⟩ m).file, i⟩ := by
        rw [BoardPos.mk.injEq, hf _, hf m, hr _]
        exact ⟨rfl, by omega⟩
      rw [hsq] at hj
      exact hj
    · have hj := h (pos.rank - i).toNat (by omega) (by omega)
      have hsq : stepN pos ⟨0, (-1 : Int)⟩ ((pos.rank - i).toNat) =
          ⟨(stepN pos ⟨0, (-1 : Int)⟩ m).file, i⟩ := by
        rw [BoardPos.mk.injEq, hf _, hf m, hr _]
        exact ⟨rfl, by omega⟩
      rw [hsq] at hj
      exact hj

/-- Translation between the horizontal path loop of is_move_possible (moving
from stepN pos (sg,0) m to pos) and emptiness of the intermediate squares. -/
theorem horiz_path_iff (s : GameState) (pos : BoardPos) (sg : Int)
    (hsg : sg = 1 ∨ sg = -1) (m : Nat) (hm : 1 ≤ m) :
    (((intRange (min (stepN pos ⟨sg, 0⟩ m).file pos.file + 1)
                (max (stepN pos ⟨sg, 0⟩ m).file pos.file)).all fun i =>
        decide ((get_piece s ⟨i, (stepN pos ⟨sg, 0⟩ m).rank⟩).type = .Empty)) = true) ↔
    (∀ j : Nat, 1 ≤ j → j < m → (get_piece s (stepN pos ⟨sg, 0⟩ j)).type = .Empty) := by
  have hf : ∀ n : Nat, (stepN pos ⟨sg, 0⟩ n).file = pos.file + (n : Int) * sg := by
    intro n
    simp [stepN, boardPos_mk_file]
  have hr : ∀ n : Nat, (stepN pos ⟨sg, 0⟩ n).rank = pos.rank := by
    intro n
    simp [stepN, boardPos_mk_rank]
  rw [all_intRange_iff]
  constructor
  · intro h j hj1 hjm
    have hsq : (⟨pos.file + (j : Int) * sg, (stepN pos ⟨sg, 0⟩ m).rank⟩ : BoardPos) =
        stepN pos ⟨sg, 0⟩ j := by
      rw [BoardPos.mk.injEq, hr m, hr j, hf j]
      exact ⟨rfl, rfl⟩
    have hb := h (pos.file + (j : Int) * sg) ?_ ?_
    · simp only [decide_eq_true_eq] at hb
      rw [hsq] at hb
      exact hb
    · rw [hf m]
      rcases hsg with rfl | rfl <;> omega
    · rw [hf m]
      rcases hsg with rfl | rfl <;> omega
  · intro h i hlo hhi
    rw [hf m] at hlo hhi
    simp only [decide_eq_true_eq]
    rcases hsg with rfl | rfl
    · have hj := h (i - pos.file).toNat (by omega) (by omega)
      have hsq : stepN pos ⟨(1 : Int), 0⟩ ((i - pos.file).toNat) =
          ⟨i, (stepN pos ⟨(1 : Int), 0⟩ m).rank⟩ := by
        rw [BoardPos.mk.injEq, hr _, hr m, hf _]
        exact ⟨by omega, rfl⟩
      rw [hsq] at hj
      exact hj
    · have hj := h (pos.file - i).toNat (by omega) (by omega)
      have hsq : stepN pos ⟨(-1 : Int), 0⟩ ((pos.file - i).toNat) =
          ⟨i, (stepN pos ⟨(-1 : Int), 0⟩ m).rank⟩ := by
        rw [BoardPos.mk.injEq, hr _, hr m, hf _]
        exact ⟨by omega, rfl⟩
      rw [hsq] at hj
      exact hj

/-- Core of the diagonal path translation with the step offsets already
normalized to the negated direction signs. -/
theorem diag_path_core (s : GameState) (pos : BoardPos) (sf sr : Int)
    (hsf : sf = 1 ∨ sf = -1) (hsr : sr = 1 ∨ sr = -1) (m : Nat) (hm : 1 ≤ m) :
    (((List.range (m - 1)).all fun j : Nat =>
        decide ((get_piece s
          ⟨(stepN pos ⟨sf, sr⟩ m).file + (-sf) * ((j : Int) + 1),
           (stepN pos ⟨sf, sr⟩ m).rank + (-sr) * ((j : Int) + 1)⟩).type = .Empty)) = true) ↔
    (∀ j : Nat, 1 ≤ j → j < m → (get_piece s (stepN pos ⟨sf, sr⟩ j)).type = .Empty) := by
  have hfn : ∀ n : Nat, (stepN pos ⟨sf, sr⟩ n).file = pos.file + (n : Int) * sf := by
    intro n
    simp [stepN, boardPos_mk_file]
  have hrn : ∀ n : Nat, (stepN pos ⟨sf, sr⟩ n).rank = pos.rank + (n : Int) * sr := by
    intro n
    simp [stepN, boardPos_mk_rank]
  rw [all_range_iff]
  constructor
  · intro h j hj1 hjm
    have hb := h (m - 1 - j) (by omega)
    simp only [decide_eq_true_eq] at hb
    have hsq : (⟨(stepN pos ⟨sf, sr⟩ m).file + (-sf) * (((m - 1 - j : Nat) : Int) + 1),
                (stepN pos ⟨sf, sr⟩ m).rank + (-sr) * (((m - 1 - j : Nat) : Int) + 1)⟩ :
          BoardPos) = stepN pos ⟨sf, sr⟩ j := by
      rw [BoardPos.mk.injEq, hfn m, hfn j, hrn m, hrn j]
      constructor
      · rcases hsf with rfl | rfl <;> omega
      · rcases hsr with rfl | rfl <;> omega
    rw [hsq] at hb
    exact hb
  · intro h j hjlt
    simp only [decide_eq_true_eq]
    have hb := h (m - 1 - j) (by omega) (by omega)
    have hsq : stepN pos ⟨sf, sr⟩ (m - 1 - j) =
        ⟨(stepN pos ⟨sf, sr⟩ m).file + (-sf) * ((j : Int) + 1),
         (stepN pos ⟨sf, sr⟩ m).rank + (-sr) * ((j : Int) + 1)⟩ := by
      rw [BoardPos.mk.injEq, hfn (m - 1 - j), hfn m, hrn (m - 1 - j), hrn m]
      constructor
      · rcases hsf with rfl | rfl <;> omega
      · rcases hsr with rfl | rfl <;> omega
    rw [hsq] at hb
    exact hb

/-- Translation between the diagonal path loop of is_move_possible (moving from
stepN pos (sf,sr) m to pos, with the loop offsets computed from coordinate
comparisons as in the source) and emptiness of the intermediate ray squares. -/
theorem diag_path_iff (s : GameState) (pos : BoardPos) (sf sr : Int)
    (hsf : sf = 1 ∨ sf = -1) (hsr : sr = 1 ∨ sr = -1) (m : Nat) (hm : 1 ≤ m) :
    (((List.range (((stepN pos ⟨sf, sr⟩ m).file - pos.file).natAbs - 1)).all fun j : Nat =>
        decide ((get_piece s
          ⟨(stepN pos ⟨sf, sr⟩ m).file +
             (if (stepN pos ⟨sf, sr⟩ m).file > pos.file then -1 else 1) * ((j : Int) + 1),
           (stepN pos ⟨sf, sr⟩ m).rank +
             (if (stepN pos ⟨sf, sr⟩ m).rank > pos.rank then -1 else 1) * ((j : Int) + 1)⟩).type
          = .Empty)) = true) ↔
    (∀ j : Nat, 1 ≤ j → j < m → (get_piece s (stepN pos ⟨sf, sr⟩ j)).type = .Empty) := by
  have hfn : ∀ n : Nat, (stepN pos ⟨sf, sr⟩ n).file = pos.file + (n : Int) * sf := by
    intro n
    simp [stepN, boardPos_mk_file]
  have hrn : ∀ n : Nat, (stepN pos ⟨sf, sr⟩ n).rank = pos.rank + (n : Int) * sr := by
    intro n
    simp [stepN, boardPos_mk_rank]
  have habs : (((stepN pos ⟨sf, sr⟩ m).file - pos.file).natAbs - 1) = m - 1 := by
    rw [hfn m]
    rcases hsf with rfl | rfl <;> omega
  have hfa : (if (stepN pos ⟨sf, sr⟩ m).file > pos.file then (-1 : Int) else 1) = -sf := by
    rw [hfn m]
    rcases hsf with rfl | rfl
    · rw [if_pos (by omega)]
    · rw [if_neg (by omega)]
      omega
  have hra : (if (stepN pos ⟨sf, sr⟩ m).rank > pos.rank then (-1 : Int) else 1) = -sr := by
    rw [hrn m]
    rcases hsr with rfl | rfl
    · rw [if_pos (by omega)]
    · rw [if_neg (by omega)]
      omega
  rw [habs]
  simp only [hfa, hra]
  exact diag_path_core s pos sf sr hsf hsr m hm

theorem move_mk_from (a b : BoardPos) : (Move.mk a b).from_pos = a := rfl

theorem move_mk_to (a b : BoardPos) : (Move.mk a b).to_pos = b := rfl

theorem boardpos_ext {p r : BoardPos} (h1 : p.file = r.file) (h2 : p.rank = r.rank) :
    p = r := by
  cases p
  cases r
  rw [BoardPos.mk.injEq]
  exact ⟨h1, h2⟩

theorem stepN_file_eval (pos : BoardPos) (a b : Int) (n : Nat) :
    (stepN pos ⟨a, b⟩ n).file = pos.file + (n : Int) * a := rfl

theorem stepN_rank_eval (pos : BoardPos) (a b : Int) (n : Nat) :
    (stepN pos ⟨a, b⟩ n).rank = pos.rank + (n : Int) * b := rfl

/-- A clear vertical ray from pos to a queen or rook on it gives a pseudo-legal
move from that piece onto pos. -/
theorem vert_ray_to_possible (s : GameState) (pos q : BoardPos) (sg : Int)
    (hsg : sg = 1 ∨ sg = -1) (m : Nat) (hm : 1 ≤ m)
    (hgate : ¬((get_piece s pos).type ≠ .Empty ∧
               (get_piece s q).player = (get_piece s pos).player))
    (hk : (get_piece s q).type = .Queen ∨ (get_piece s q).type = .Rook)
    (hq : q = stepN pos ⟨0, sg⟩ m)
    (hemp : ∀ j, 1 ≤ j → j < m → (get_piece s (stepN pos ⟨0, sg⟩ j)).type = .Empty) :
    is_move_possible s ⟨q, pos⟩ = true := by
  have h1 : q.file = pos.file := by
    rw [hq, stepN_file_eval]
    omega
  rcases hk with hk | hk <;>
    (simp only [is_move_possible, move_mk_from, move_mk_to, hk, reduceIte]
     rw [if_neg hgate]
     rw [if_pos h1]
     rw [hq]
     exact (vert_path_iff s pos sg hsg m hm).mpr hemp)

/-- A clear horizontal ray from pos to a queen or rook on it gives a
pseudo-legal move from that piece onto pos. -/
theorem horiz_ray_to_possible (s : GameState) (pos q : BoardPos) (sg : Int)
    (hsg : sg = 1 ∨ sg = -1) (m : Nat) (hm : 1 ≤ m)
    (hgate : ¬((get_piece s pos).type ≠ .Empty ∧
               (get_piece s q).player = (get_piece s pos).player))
    (hk : (get_piece s q).type = .Queen ∨ (get_piece s q).type = .Rook)
    (hq : q = stepN pos ⟨sg, 0⟩ m)
    (hemp : ∀ j, 1 ≤ j → j < m → (get_piece s (stepN pos ⟨sg, 0⟩ j)).type = .Empty) :
    is_move_possible s ⟨q, pos⟩ = true := by
  have h1 : ¬ q.file = pos.file := by
    rw [hq, stepN_file_eval]
    rcases hsg with rfl | rfl <;> omega
  have h2 : q.rank = pos.rank := by
    rw [hq, stepN_rank_eval]
    omega
  rcases hk with hk | hk <;>
    (simp only [is_move_possible, move_mk_from, move_mk_to, hk, reduceIte]
     rw [if_neg hgate]
     rw [if_neg h1]
     rw [if_pos h2]
     rw [hq]
     exact (horiz_path_iff s pos sg hsg m hm).mpr hemp)

/-- A clear diagonal ray from pos to a queen or bishop on it gives a
pseudo-legal move from that piece onto pos. -/
theorem diag_ray_to_possible (s : GameState) (pos q : BoardPos) (sf sr : Int)
    (hsf : sf = 1 ∨ sf = -1) (hsr : sr = 1 ∨ sr = -1) (m : Nat) (hm : 1 ≤ m)
    (hgate : ¬((get_piece s pos).type ≠ .Empty ∧
               (get_piece s q).player = (get_piece s pos).player))
    (hk : (get_piece s q).type = .Queen ∨ (get_piece s q).type = .Bishop)
    (hq : q = stepN pos ⟨sf, sr⟩ m)
    (hemp : ∀ j, 1 ≤ j → j < m → (get_piece s (stepN pos ⟨sf, sr⟩ j)).type = .Empty) :
    is_move_possible s ⟨q, pos⟩ = true := by
  have h1 : ¬ q.file = pos.file := by
    rw [hq, stepN_file_eval]
    rcases hsf with rfl | rfl <;> omega
  have h2 : ¬ q.rank = pos.rank := by
    rw [hq, stepN_rank_eval]
    rcases hsr with rfl | rfl <;> omega
  have h3 : (q.file - pos.file).natAbs = (q.rank - pos.rank).natAbs := by
    rw [hq, stepN_file_eval, stepN_rank_eval]
    rcases hsf with rfl | rfl <;> rcases hsr with rfl | rfl <;> omega
  rcases hk with hk | hk <;>
    (simp only [is_move_possible, move_mk_from, move_mk_to, hk, reduceIte]
     rw [if_neg hgate]
     rw [if_neg h1]
     rw [if_neg h2]
     rw [if_pos h3]
     rw [hq]
     exact (diag_path_iff s pos sf sr hsf hsr m hm).mpr hemp)

/-- From a passed vertical path check of is_move_possible, recover the ray
direction, distance, and emptiness of the intermediate squares. -/
theorem extract_vert (s : GameState) (pos q : BoardPos)
    (h1 : q.file = pos.file) (hrne : q.rank ≠ pos.rank)
    (hposs : ((intRange (min q.rank pos.rank + 1) (max q.rank pos.rank)).all fun i =>
        decide ((get_piece s ⟨q.file, i⟩).type = .Empty)) = true) :
    ∃ sg : Int, (sg = 1 ∨ sg = -1) ∧ ∃ m : Nat, 1 ≤ m ∧ q = stepN pos ⟨0, sg⟩ m ∧
      ∀ j, 1 ≤ j → j < m → (get_piece s (stepN pos ⟨0, sg⟩ j)).type = .Empty := by
  by_cases hd : pos.rank < q.rank
  · refine ⟨1, Or.inl rfl, (q.rank - pos.rank).toNat, by omega, ?_, ?_⟩
    · apply boardpos_ext
      · rw [stepN_file_eval]; omega
      · rw [stepN_rank_eval]; omega
    · have hq2 : q = stepN pos ⟨0, 1⟩ ((q.rank - pos.rank).toNat) := by
        apply boardpos_ext
        · rw [stepN_file_eval]; omega
        · rw [stepN_rank_eval]; omega
      rw [hq2] at hposs
      exact (vert_path_iff s pos 1 (Or.inl rfl) _ (by omega)).mp hposs
  · refine ⟨-1, Or.inr rfl, (pos.rank - q.rank).toNat, by omega, ?_, ?_⟩
    · apply boardpos_ext
      · rw [stepN_file_eval]; omega
      · rw [stepN_rank_eval]; omega
    · have hq2 : q = stepN pos ⟨0, -1⟩ ((pos.rank - q.rank).toNat) := by
        apply boardpos_ext
        · rw [stepN_file_eval]; omega
        · rw [stepN_rank_eval]; omega
      rw [hq2] at hposs
      exact (vert_path_iff s pos (-1) (Or.inr rfl) _ (by omega)).mp hposs

/-- From a passed horizontal path check of is_move_possible, recover the ray
direction, distance, and emptiness of the intermediate squares. -/
theorem extract_horiz (s : GameState) (pos q : BoardPos)
    (h1 : q.file ≠ pos.file) (h2 : q.rank = pos.rank)
    (hposs : ((intRange (min q.file pos.file + 1) (max q.file pos.file)).all fun i =>
        decide ((get_piece s ⟨i, q.rank⟩).type = .Empty)) = true) :
    ∃ sg : Int, (sg = 1 ∨ sg = -1) ∧ ∃ m : Nat, 1 ≤ m ∧ q = stepN pos ⟨sg, 0⟩ m ∧
      ∀ j, 1 ≤ j → j < m → (get_piece s (stepN pos ⟨sg, 0⟩ j)).type = .Empty := by
  by_cases hd : pos.file < q.file
  · refine ⟨1, Or.inl rfl, (q.file - pos.file).toNat, by omega, ?_, ?_⟩
    · apply boardpos_ext
      · rw [stepN_file_eval]; omega
      · rw [stepN_rank_eval]; omega
    · have hq2 : q = stepN pos ⟨1, 0⟩ ((q.file - pos.file).toNat) := by
        apply boardpos_ext
        · rw [stepN_file_eval]; omega
        · rw [stepN_rank_eval]; omega
      rw [hq2] at hposs
      exact (horiz_path_iff s pos 1 (Or.inl rfl) _ (by omega)).mp hposs
  · refine ⟨-1, Or.inr rfl, (pos.file - q.file).toNat, by omega, ?_, ?_⟩
    · apply boardpos_ext
      · rw [stepN_file_eval]; omega
      · rw [stepN_rank_eval]; omega
    · have hq2 : q = stepN pos ⟨-1, 0⟩ ((pos.file - q.file).toNat) := by
        apply boardpos_ext
        · rw [stepN_file_eval]; omega
        · rw [stepN_rank_eval]; omega
      rw [hq2] at hposs
      exact (horiz_path_iff s pos (-1) (Or.inr rfl) _ (by omega)).mp hposs

/-- From a passed diagonal path check of is_move_possible, recover the ray
direction, distance, and emptiness of the intermediate squares. -/
theorem extract_diag (s : GameState) (pos q : BoardPos)
    (_h1 : q.file ≠ pos.file) (h2 : q.rank ≠ pos.rank)
    (h3 : (q.file - pos.file).natAbs = (q.rank - pos.rank).natAbs)
    (hposs : ((List.range ((q.file - pos.file).natAbs - 1)).all fun j : Nat =>
        decide ((get_piece s
          ⟨q.file + (if q.file > pos.file then -1 else 1) * ((j : Int) + 1),
           q.rank + (if q.rank > pos.rank then -1 else 1) * ((j : Int) + 1)⟩).type
          = .Empty)) = true) :
    ∃ sf sr : Int, (sf = 1 ∨ sf = -1) ∧ (sr = 1 ∨ sr = -1) ∧
      ∃ m : Nat, 1 ≤ m ∧ q = stepN pos ⟨sf, sr⟩ m ∧
      ∀ j, 1 ≤ j → j < m → (get_piece s (stepN pos ⟨sf, sr⟩ j)).type = .Empty := by
  have main : ∀ sf sr : Int, (sf = 1 ∨ sf = -1) → (sr = 1 ∨ sr = -1) →
      q = stepN pos ⟨sf, sr⟩ ((q.file - pos.file).natAbs) →
      ∃ sf2 sr2 : Int, (sf2 = 1 ∨ sf2 = -1) ∧ (sr2 = 1 ∨ sr2 = -1) ∧
        ∃ m : Nat, 1 ≤ m ∧ q = stepN pos ⟨sf2, sr2⟩ m ∧
        ∀ j, 1 ≤ j → j < m → (get_piece s (stepN pos ⟨sf2, sr2⟩ j)).type = .Empty := by
    intro sf sr hsf hsr hq2
    have hm : 1 ≤ (q.file - pos.file).natAbs := by omega
    refine ⟨sf, sr, hsf, hsr, (q.file - pos.file).natAbs, hm, hq2, ?_⟩
    rw [hq2] at hposs
    exact (diag_path_iff s pos sf sr hsf hsr _ hm).mp hposs
  by_cases hfd : pos.file < q.file <;> by_cases hrd : pos.rank < q.rank
  · exact main 1 1 (Or.inl rfl) (Or.inl rfl)
      (boardpos_ext (by rw [stepN_file_eval]; omega) (by rw [stepN_rank_eval]; omega))
  · exact main 1 (-1) (Or.inl rfl) (Or.inr rfl)
      (boardpos_ext (by rw [stepN_file_eval]; omega) (by rw [stepN_rank_eval]; omega))
  · exact main (-1) 1 (Or.inr rfl) (Or.inl rfl)
      (boardpos_ext (by rw [stepN_file_eval]; omega) (by rw [stepN_rank_eval]; omega))
  · exact main (-1) (-1) (Or.inr rfl) (Or.inr rfl)
      (boardpos_ext (by rw [stepN_file_eval]; omega) (by rw [stepN_rank_eval]; omega))

/-- A matching slider found by the ray scan has a pseudo-legal move onto pos. -/
theorem slider_ray_to_possible (s : GameState) (pos q : BoardPos)
    (hgate : ¬((get_piece s pos).type ≠ .Empty ∧
               (get_piece s q).player = (get_piece s pos).player))
    (hk3 : (get_piece s q).type = .Queen ∨ (get_piece s q).type = .Rook ∨
           (get_piece s q).type = .Bishop)
    {t : BoardPos} (ht : t ∈ QUEEN_DIRECTIONS) (m : Nat) (hm : 1 ≤ m)
    (hq : q = stepN pos t m)
    (hemp : ∀ j, 1 ≤ j → j < m → (get_piece s (stepN pos t j)).type = .Empty)
    (hcorrect : correct_ray_piece t (get_piece s q).type = true) :
    is_move_possible s ⟨q, pos⟩ = true := by
  have hstraightk : ∀ u : BoardPos, u = t →
      correct_ray_piece u (get_piece s q).type = true →
      ((get_piece s q).type = .Bishop → False) →
      (get_piece s q).type = .Queen ∨ (get_piece s q).type = .Rook := by
    intro u _ _ hnb
    rcases hk3 with hk | hk | hk
    · exact Or.inl hk
    · exact Or.inr hk
    · exact absurd hk (fun h => hnb h)
  have hdiagk : ((get_piece s q).type = .Rook → False) →
      (get_piece s q).type = .Queen ∨ (get_piece s q).type = .Bishop := by
    intro hnr
    rcases hk3 with hk | hk | hk
    · exact Or.inl hk
    · exact absurd hk (fun h => hnr h)
    · exact Or.inr hk
  fin_cases ht
  · exact vert_ray_to_possible s pos q 1 (Or.inl rfl) m hm hgate
      (hstraightk _ rfl hcorrect (fun hb => by rw [hb] at hcorrect; exact absurd hcorrect (by decide)))
      hq hemp
  · exact diag_ray_to_possible s pos q 1 1 (Or.inl rfl) (Or.inl rfl) m hm hgate
      (hdiagk (fun hb => by rw [hb] at hcorrect; exact absurd hcorrect (by decide)))
      hq hemp
  · exact horiz_ray_to_possible s pos q 1 (Or.inl rfl) m hm hgate
      (hstraightk _ rfl hcorrect (fun hb => by rw [hb] at hcorrect; exact absurd hcorrect (by decide)))
      hq hemp
  · exact vert_ray_to_possible s pos q (-1) (Or.inr rfl) m hm hgate
      (hstraightk _ rfl hcorrect (fun hb => by rw [hb] at hcorrect; exact absurd hcorrect (by decide)))
      hq hemp
  · exact diag_ray_to_possible s pos q (-1) (-1) (Or.inr rfl) (Or.inr rfl) m hm hgate
      (hdiagk (fun hb => by rw [hb] at hcorrect; exact absurd hcorrect (by decide)))
      hq hemp
  · exact horiz_ray_to_possible s pos q (-1) (Or.inr rfl) m hm hgate
      (hstraightk _ rfl hcorrect (fun hb => by rw [hb] at hcorrect; exact absurd hcorrect (by decide)))
      hq hemp
  · exact diag_ray_to_possible s pos q (-1) 1 (Or.inr rfl) (Or.inl rfl) m hm hgate
      (hdiagk (fun hb => by rw [hb] at hcorrect; exact absurd hcorrect (by decide)))
      hq hemp
  · exact diag_ray_to_possible s pos q 1 (-1) (Or.inl rfl) (Or.inr rfl) m hm hgate
      (hdiagk (fun hb => by rw [hb] at hcorrect; exact absurd hcorrect (by decide)))
      hq hemp

/-- A slider with a pseudo-legal move onto pos stands at the end of a clear
queen ray from pos and satisfies the scan's acceptance test. -/
theorem slider_possible_to_ray (s : GameState) (pos q : BoardPos)
    (hgate : ¬((get_piece s pos).type ≠ .Empty ∧
               (get_piece s q).player = (get_piece s pos).player))
    (hk3 : (get_piece s q).type = .Queen ∨ (get_piece s q).type = .Rook ∨
           (get_piece s q).type = .Bishop)
    (hposs : is_move_possible s ⟨q, pos⟩ = true) :
    ∃ t ∈ QUEEN_DIRECTIONS, ∃ m : Nat, 1 ≤ m ∧ q = stepN pos t m ∧
      (∀ j, 1 ≤ j → j < m → (get_piece s (stepN pos t j)).type = .Empty) ∧
      correct_ray_piece t (get_piece s q).type = true := by
  have hqne : q ≠ pos := by
    intro he
    apply hgate
    constructor
    · rw [← he]
      rcases hk3 with hk | hk | hk <;> (rw [hk]; intro hc; exact PieceType.noConfusion hc)
    · rw [he]
  rcases hk3 with hk | hk | hk
  · -- Queen: all three geometric branches live
    simp only [is_move_possible, move_mk_from, move_mk_to, hk, reduceIte] at hposs
    rw [if_neg hgate] at hposs
    by_cases h1 : q.file = pos.file
    · rw [if_pos h1] at hposs
      have hrne : q.rank ≠ pos.rank := fun he => hqne (boardpos_ext h1 he)
      obtain ⟨sg, hsg, m, hm, hq2, hemp⟩ := extract_vert s pos q h1 hrne hposs
      refine ⟨⟨0, sg⟩, ?_, m, hm, hq2, hemp, ?_⟩
      · rcases hsg with rfl | rfl <;> decide
      · rw [hk]
        rcases hsg with rfl | rfl <;> decide
    · rw [if_neg h1] at hposs
      by_cases h2 : q.rank = pos.rank
      · rw [if_pos h2] at hposs
        obtain ⟨sg, hsg, m, hm, hq2, hemp⟩ := extract_horiz s pos q h1 h2 hposs
        refine ⟨⟨sg, 0⟩, ?_, m, hm, hq2, hemp, ?_⟩
        · rcases hsg with rfl | rfl <;> decide
        · rw [hk]
          rcases hsg with rfl | rfl <;> decide
      · rw [if_neg h2] at hposs
        by_cases h3 : (q.file - pos.file).natAbs = (q.rank - pos.rank).natAbs
        · rw [if_pos h3] at hposs
          obtain ⟨sf, sr, hsf, hsr, m, hm, hq2, hemp⟩ := extract_diag s pos q h1 h2 h3 hposs
          refine ⟨⟨sf, sr⟩, ?_, m, hm, hq2, hemp, ?_⟩
          · rcases hsf with rfl | rfl <;> rcases hsr with rfl | rfl <;> decide
          · rw [hk]
            rcases hsf with rfl | rfl <;> rcases hsr with rfl | rfl <;> decide
        · rw [if_neg h3] at hposs
          exact absurd hposs Bool.false_ne_true
  · -- Rook: the diagonal branch is refused by the source
    simp only [is_move_possible, move_mk_from, move_mk_to, hk, reduceIte] at hposs
    rw [if_neg hgate] at hposs
    by_cases h1 : q.file = pos.file
    · rw [if_pos h1] at hposs
      have hrne : q.rank ≠ pos.rank := fun he => hqne (boardpos_ext h1 he)
      obtain ⟨sg, hsg, m, hm, hq2, hemp⟩ := extract_vert s pos q h1 hrne hposs
      refine ⟨⟨0, sg⟩, ?_, m, hm, hq2, hemp, ?_⟩
      · rcases hsg with rfl | rfl <;> decide
      · rw [hk]
        rcases hsg with rfl | rfl <;> decide
    · rw [if_neg h1] at hposs
      by_cases h2 : q.rank = pos.rank
      · rw [if_pos h2] at hposs
        obtain ⟨sg, hsg, m, hm, hq2, hemp⟩ := extract_horiz s pos q h1 h2 hposs
        refine ⟨⟨sg, 0⟩, ?_, m, hm, hq2, hemp, ?_⟩
        · rcases hsg with rfl | rfl <;> decide
        · rw [hk]
          rcases hsg with rfl | rfl <;> decide
      · rw [if_neg h2] at hposs
        by_cases h3 : (q.file - pos.file).natAbs = (q.rank - pos.rank).natAbs
        · rw [if_pos h3] at hposs
          exact absurd hposs Bool.false_ne_true
        · rw [if_neg h3] at hposs
          exact absurd hposs Bool.false_ne_true
  · -- Bishop: the straight branches are refused by the source
    simp only [is_move_possible, move_mk_from, move_mk_to, hk, reduceIte] at hposs
    rw [if_neg hgate] at hposs
    by_cases h1 : q.file = pos.file
    · rw [if_pos h1] at hposs
      exact absurd hposs Bool.false_ne_true
    · rw [if_neg h1] at hposs
      by_cases h2 : q.rank = pos.rank
      · rw [if_pos h2] at hposs
        exact absurd hposs Bool.false_ne_true
      · rw [if_neg h2] at hposs
        by_cases h3 : (q.file - pos.file).natAbs = (q.rank - pos.rank).natAbs
        · rw [if_pos h3] at hposs
          obtain ⟨sf, sr, hsf, hsr, m, hm, hq2, hemp⟩ := extract_diag s pos q h1 h2 h3 hposs
          refine ⟨⟨sf, sr⟩, ?_, m, hm, hq2, hemp, ?_⟩
          · rcases hsf with rfl | rfl <;> rcases hsr with rfl | rfl <;> decide
          · rw [hk]
            rcases hsf with rfl | rfl <;> rcases hsr with rfl | rfl <;> decide
        · rw [if_neg h3] at hposs
          exact absurd hposs Bool.false_ne_true

theorem bool_eq_of_iff {a b : Bool} (h : (a = true) ↔ (b = true)) : a = b := by
  rcases a <;> rcases b
  · rfl
  · exact absurd (h.mpr rfl) Bool.false_ne_true
  · exact absurd (h.mp rfl) Bool.false_ne_true
  · rfl

theorem stepN_one_file (pos t : BoardPos) : (stepN pos t 1).file = pos.file + t.file := by
  simp only [stepN, boardPos_mk_file, Nat.cast_one, one_mul]

theorem stepN_one_rank (pos t : BoardPos) : (stepN pos t 1).rank = pos.rank + t.rank := by
  simp only [stepN, boardPos_mk_rank, Nat.cast_one, one_mul]

/-- The detector's ray scan as an existential over ray geometry: some queen
direction carries a first occupied square that matches the scan's acceptance
test with the attacker's colour. -/
theorem ray_scan_iff (s : GameState) (a : Player) (pos : BoardPos) (hpos : onBoard pos) :
    ((QUEEN_DIRECTIONS.any fun t =>
        ray_attack_loop s a t RAY_FUEL (boardpos_add pos t)) = true) ↔
      ∃ t ∈ QUEEN_DIRECTIONS, ∃ m : Nat, 1 ≤ m ∧ onBoard (stepN pos t m) ∧
        (∀ j, 1 ≤ j → j < m → (get_piece s (stepN pos t j)).type = .Empty) ∧
        (get_piece s (stepN pos t m)).type ≠ .Empty ∧
        correct_ray_piece t (get_piece s (stepN pos t m)).type = true ∧
        (get_piece s (stepN pos t m)).player = a := by
  rw [List.any_eq_true]
  constructor
  · rintro ⟨t, ht, hloop⟩
    have hb : boardpos_add pos t =
        if onBoard (stepN pos t 1) then stepN pos t 1 else NULL_BOARDPOS := by
      conv_lhs => rw [← stepN_zero pos t]
      exact boardpos_add_stepN pos t 0
    rw [hb] at hloop
    obtain ⟨m, hm, h2, h3, h4, h5, h6⟩ :=
      (ray_attack_loop_iff s a ht hpos RAY_FUEL 1 (le_refl 1) (by decide)).mp hloop
    exact ⟨t, ht, m, hm, h2, h3, h4, h5, h6⟩
  · rintro ⟨t, ht, m, hm, h2, h3, h4, h5, h6⟩
    refine ⟨t, ht, ?_⟩
    have hb : boardpos_add pos t =
        if onBoard (stepN pos t 1) then stepN pos t 1 else NULL_BOARDPOS := by
      conv_lhs => rw [← stepN_zero pos t]
      exact boardpos_add_stepN pos t 0
    rw [hb]
    exact (ray_attack_loop_iff s a ht hpos RAY_FUEL 1 (le_refl 1) (by decide)).mpr
      ⟨m, hm, h2, h3, h4, h5, h6⟩

/-- The body of the pawn and knight scans: if the probed square exists and
holds a piece of kind pt and the attacker's colour, extract that square. -/
theorem scan_body_extract (s : GameState) (pos d : BoardPos) (a : Player) (pt : PieceType)
    (hbody : (if boardpos_add pos d = NULL_BOARDPOS then false
              else decide ((get_piece s (boardpos_add pos d)).type = pt ∧
                           (get_piece s (boardpos_add pos d)).player = a)) = true) :
    ∃ q, onBoard q ∧ (get_piece s q).type = pt ∧ (get_piece s q).player = a ∧
      q.file - pos.file = d.file ∧ q.rank - pos.rank = d.rank := by
  have hb : boardpos_add pos d =
      if onBoard (stepN pos d 1) then stepN pos d 1 else NULL_BOARDPOS := by
    conv_lhs => rw [← stepN_zero pos d]
    exact boardpos_add_stepN pos d 0
  rw [hb] at hbody
  by_cases hob : onBoard (stepN pos d 1)
  · rw [if_pos hob] at hbody
    rw [if_neg (onBoard_ne_null hob)] at hbody
    rw [decide_eq_true_eq] at hbody
    refine ⟨stepN pos d 1, hob, hbody.1, hbody.2, ?_, ?_⟩
    · rw [stepN_one_file]
      ring
    · rw [stepN_one_rank]
      ring
  · rw [if_neg hob] at hbody
    rw [if_pos rfl] at hbody
    exact absurd hbody Bool.false_ne_true

/-- Converse of scan_body_extract: a piece of kind pt and the attacker's
colour at offset d from pos makes the scan body accept. -/
theorem scan_body_intro (s : GameState) (pos q d : BoardPos) (a : Player) (pt : PieceType)
    (hob : onBoard q) (hf : q.file - pos.file = d.file) (hr : q.rank - pos.rank = d.rank)
    (hpt : (get_piece s q).type = pt) (hpp : (get_piece s q).player = a) :
    (if boardpos_add pos d = NULL_BOARDPOS then false
     else decide ((get_piece s (boardpos_add pos d)).type = pt ∧
                  (get_piece s (boardpos_add pos d)).player = a)) = true := by
  have hq : q = stepN pos d 1 := by
    apply boardpos_ext
    · rw [stepN_one_file]
      omega
    · rw [stepN_one_rank]
      omega
  have hb : boardpos_add pos d =
      if onBoard (stepN pos d 1) then stepN pos d 1 else NULL_BOARDPOS := by
    conv_lhs => rw [← stepN_zero pos d]
    exact boardpos_add_stepN pos d 0
  rw [← hq] at hb
  rw [hb, if_pos hob, if_neg (onBoard_ne_null hob), decide_eq_true_eq]
  exact ⟨hpt, hpp⟩

/-- The knight scan accepts exactly when an attacker knight stands a knight
jump away from the scanned square. -/
theorem knight_scan_iff (s : GameState) (pos : BoardPos) (a : Player) :
    knight_attack_scan s pos a = true ↔
      ∃ q, onBoard q ∧ (get_piece s q).type = .Knight ∧ (get_piece s q).player = a ∧
        (((q.file - pos.file).natAbs = 2 ∧ (q.rank - pos.rank).natAbs = 1) ∨
         ((q.file - pos.file).natAbs = 1 ∧ (q.rank - pos.rank).natAbs = 2)) := by
  rw [knight_attack_scan, List.any_eq_true]
  constructor
  · rintro ⟨d, hd, hbody⟩
    obtain ⟨q, hob, hkt, hkp, hf, hr⟩ := scan_body_extract s pos d a .Knight hbody
    refine ⟨q, hob, hkt, hkp, ?_⟩
    rw [hf, hr]
    fin_cases hd <;> decide
  · rintro ⟨q, hob, hkt, hkp, hL⟩
    refine ⟨⟨q.file - pos.file, q.rank - pos.rank⟩, ?_, ?_⟩
    · simp only [KNIGHT_DIRECTIONS, List.mem_cons, List.not_mem_nil, or_false,
                 BoardPos.mk.injEq]
      omega
    · exact scan_body_intro s pos q ⟨q.file - pos.file, q.rank - pos.rank⟩ a .Knight hob
        rfl rfl hkt hkp

/-- The pawn scan, on a square whose stored player field is the attacker's
opponent, accepts exactly when an attacker pawn stands one diagonal step on
its own attacking side of the scanned square. -/
theorem pawn_attack_scan_iff (s : GameState) (pos : BoardPos) (a : Player)
    (hsp : (get_piece s pos).player = other_player a) :
    pawn_attack_scan s pos a = true ↔
      ∃ q, onBoard q ∧ (get_piece s q).type = .Pawn ∧ (get_piece s q).player = a ∧
        (q.file - pos.file = 1 ∨ q.file - pos.file = -1) ∧
        q.rank - pos.rank = (if a = .BlackPlayer then -1 else 1) := by
  simp only [pawn_attack_scan, List.any_eq_true, hsp]
  rcases a with _ | _
  · simp only [other_player, reduceIte]
    constructor
    · rintro ⟨d0, hd0, hbody⟩
      fin_cases hd0
      · have hbody2 : (if boardpos_add pos ⟨-1, 1⟩ = NULL_BOARDPOS then false
            else decide ((get_piece s (boardpos_add pos ⟨-1, 1⟩)).type = .Pawn ∧
                         (get_piece s (boardpos_add pos ⟨-1, 1⟩)).player = .WhitePlayer))
            = true := hbody
        obtain ⟨q, hob, hpt, hpp, hf, hr⟩ :=
          scan_body_extract s pos ⟨-1, 1⟩ .WhitePlayer .Pawn hbody2
        exact ⟨q, hob, hpt, hpp, Or.inr hf, hr⟩
      · have hbody2 : (if boardpos_add pos ⟨1, 1⟩ = NULL_BOARDPOS then false
            else decide ((get_piece s (boardpos_add pos ⟨1, 1⟩)).type = .Pawn ∧
                         (get_piece s (boardpos_add pos ⟨1, 1⟩)).player = .WhitePlayer))
            = true := hbody
        obtain ⟨q, hob, hpt, hpp, hf, hr⟩ :=
          scan_body_extract s pos ⟨1, 1⟩ .WhitePlayer .Pawn hbody2
        exact ⟨q, hob, hpt, hpp, Or.inl hf, hr⟩
      · exact absurd (show false = true from hbody) Bool.false_ne_true
      · exact absurd (show false = true from hbody) Bool.false_ne_true
    · rintro ⟨q, hob, hpt, hpp, hfd, hrd⟩
      rcases hfd with hf1 | hf1
      · refine ⟨⟨-1, -1⟩, by decide, ?_⟩
        show (if boardpos_add pos ⟨1, 1⟩ = NULL_BOARDPOS then false
              else decide ((get_piece s (boardpos_add pos ⟨1, 1⟩)).type = .Pawn ∧
                           (get_piece s (boardpos_add pos ⟨1, 1⟩)).player = .WhitePlayer))
              = true
        exact scan_body_intro s pos q ⟨1, 1⟩ .WhitePlayer .Pawn hob hf1 hrd hpt hpp
      · refine ⟨⟨1, -1⟩, by decide, ?_⟩
        show (if boardpos_add pos ⟨-1, 1⟩ = NULL_BOARDPOS then false
              else decide ((get_piece s (boardpos_add pos ⟨-1, 1⟩)).type = .Pawn ∧
                           (get_piece s (boardpos_add pos ⟨-1, 1⟩)).player = .WhitePlayer))
              = true
        exact scan_body_intro s pos q ⟨-1, 1⟩ .WhitePlayer .Pawn hob hf1 hrd hpt hpp
  · simp only [other_player, reduceIte]
    constructor
    · rintro ⟨d0, hd0, hbody⟩
      fin_cases hd0
      · have hbody2 : (if boardpos_add pos ⟨1, -1⟩ = NULL_BOARDPOS then false
            else decide ((get_piece s (boardpos_add pos ⟨1, -1⟩)).type = .Pawn ∧
                         (get_piece s (boardpos_add pos ⟨1, -1⟩)).player = .BlackPlayer))
            = true := hbody
        obtain ⟨q, hob, hpt, hpp, hf, hr⟩ :=
          scan_body_extract s pos ⟨1, -1⟩ .BlackPlayer .Pawn hbody2
        exact ⟨q, hob, hpt, hpp, Or.inl hf, hr⟩
      · have hbody2 : (if boardpos_add pos ⟨-1, -1⟩ = NULL_BOARDPOS then false
            else decide ((get_piece s (boardpos_add pos ⟨-1, -1⟩)).type = .Pawn ∧
                         (get_piece s (boardpos_add pos ⟨-1, -1⟩)).player = .BlackPlayer))
            = true := hbody
        obtain ⟨q, hob, hpt, hpp, hf, hr⟩ :=
          scan_body_extract s pos ⟨-1, -1⟩ .BlackPlayer .Pawn hbody2
        exact ⟨q, hob, hpt, hpp, Or.inr hf, hr⟩
      · exact absurd (show false = true from hbody) Bool.false_ne_true
      · exact absurd (show false = true from hbody) Bool.false_ne_true
    · rintro ⟨q, hob, hpt, hpp, hfd, hrd⟩
      rcases hfd with hf1 | hf1
      · refine ⟨⟨1, -1⟩, by decide, ?_⟩
        show (if boardpos_add pos ⟨1, -1⟩ = NULL_BOARDPOS then false
              else decide ((get_piece s (boardpos_add pos ⟨1, -1⟩)).type = .Pawn ∧
                           (get_piece s (boardpos_add pos ⟨1, -1⟩)).player = .BlackPlayer))
              = true
        exact scan_body_intro s pos q ⟨1, -1⟩ .BlackPlayer .Pawn hob hf1 hrd hpt hpp
      · refine ⟨⟨-1, -1⟩, by decide, ?_⟩
        show (if boardpos_add pos ⟨-1, -1⟩ = NULL_BOARDPOS then false
              else decide ((get_piece s (boardpos_add pos ⟨-1, -1⟩)).type = .Pawn ∧
                           (get_piece s (boardpos_add pos ⟨-1, -1⟩)).player = .BlackPlayer))
              = true
        exact scan_body_intro s pos q ⟨-1, -1⟩ .BlackPlayer .Pawn hob hf1 hrd hpt hpp

/-- The pawn arm of is_move_possible together with the capture-only file test,
for a pawn of the attacker's colour, is exactly a one-step diagonal move in the
pawn's own forward direction. -/
theorem pawn_possible_iff (s : GameState) (pos q : BoardPos) (a : Player)
    (hpt : (get_piece s q).type = .Pawn) (hpp : (get_piece s q).player = a)
    (hgate : ¬((get_piece s pos).type ≠ .Empty ∧
               (get_piece s q).player = (get_piece s pos).player)) :
    ((is_move_possible s ⟨q, pos⟩ && decide (q.file ≠ pos.file)) = true) ↔
      ((q.file - pos.file = 1 ∨ q.file - pos.file = -1) ∧
       q.rank - pos.rank = (if a = .BlackPlayer then -1 else 1)) := by
  simp only [is_move_possible, move_mk_from, move_mk_to, hpt]
  rw [if_neg hgate]
  simp only [hpp]
  rcases a with _ | _
  · simp only [Bool.and_eq_true, decide_eq_true_eq]
    rw [if_neg (fun h => Player.noConfusion h), if_neg (fun h => Player.noConfusion h)]
    omega
  · simp only [Bool.and_eq_true, decide_eq_true_eq, if_true]
    omega

theorem correct_ray_piece_king {t : BoardPos} (ht : t ∈ QUEEN_DIRECTIONS) :
    correct_ray_piece t .King = true := by
  fin_cases ht <;> decide

theorem correct_ray_piece_cases {t : BoardPos} {pt : PieceType}
    (h : correct_ray_piece t pt = true) :
    pt = .Queen ∨ pt = .King ∨ pt = .Bishop ∨ pt = .Rook := by
  simp only [correct_ray_piece, decide_eq_true_eq] at h
  rcases h with h | ⟨_, h⟩ | ⟨_, h⟩ | ⟨_, h⟩
  · exact Or.inl h
  · exact Or.inr (Or.inl h)
  · exact Or.inr (Or.inr (Or.inl h))
  · exact Or.inr (Or.inr (Or.inr h))

theorem king_on_clear_ray_iff (s : GameState) (pos q : BoardPos) :
    king_on_clear_ray s pos q = true ↔
      ∃ t ∈ QUEEN_DIRECTIONS, ∃ k0 : Nat, k0 < 8 ∧ q = stepN pos t (k0 + 1) ∧
        ∀ j, j < k0 → (get_piece s (stepN pos t (j + 1))).type = .Empty := by
  simp only [king_on_clear_ray, List.any_eq_true, List.mem_range, Bool.and_eq_true,
             decide_eq_true_eq, List.all_eq_true]

/-- C7 (amended): the claim's clean reading of is_piece_attacked — "attacked
iff some attacker piece has a pseudo-legal capture onto the square" — fails
(see the counterexample), because the detector treats a king as a full-range
slider and keys the pawn direction off the player stored at the attacked
square. On every square whose stored player field is the attacker's opponent
(in particular every square holding an opposing piece), is_piece_attacked
coincides with the amended characterization: some attacker piece at q such
that a king lies anywhere on a clear queen ray from the square, a pawn has a
pseudo-legal diagonal move onto it, and any other piece has a pseudo-legal
move onto it. -/
theorem claim_C7_amended_attack_characterization (s : GameState) (pos : BoardPos)
    (attacker : Player) (hpos : onBoard pos)
    (hsp : (get_piece s pos).player = other_player attacker) :
    is_piece_attacked s pos attacker = amended_attack_characterization s pos attacker := by
  have hgate : ∀ r : BoardPos, (get_piece s r).player = attacker →
      ¬((get_piece s pos).type ≠ .Empty ∧
        (get_piece s r).player = (get_piece s pos).player) := by
    intro r hrp hcon
    have h2 := hcon.2
    rw [hrp, hsp] at h2
    exact other_player_ne attacker h2.symm
  apply bool_eq_of_iff
  rw [is_piece_attacked, Bool.or_eq_true, Bool.or_eq_true,
      amended_attack_characterization, ray_scan_iff s attacker pos hpos,
      pawn_attack_scan_iff s pos attacker hsp, knight_scan_iff s pos attacker,
      List.any_eq_true]
  constructor
  · rintro ((hray | hpawn) | hknight)
    · obtain ⟨t, ht, m, hm, hob, hemp, hne, hcorrect, hplayer⟩ := hray
      refine ⟨stepN pos t m, (mem_allSquares _).mpr hob, ?_⟩
      simp only [Bool.and_eq_true, decide_eq_true_eq]
      refine ⟨⟨hne, hplayer⟩, ?_⟩
      rcases correct_ray_piece_cases hcorrect with hk | hk | hk | hk
      · rw [hk, if_neg (fun h => PieceType.noConfusion h),
            if_neg (fun h => PieceType.noConfusion h)]
        exact slider_ray_to_possible s pos (stepN pos t m)
          (hgate (stepN pos t m) hplayer) (Or.inl hk) ht m hm rfl hemp hcorrect
      · rw [hk, if_pos rfl]
        refine (king_on_clear_ray_iff s pos _).mpr ⟨t, ht, m - 1, ?_, ?_, ?_⟩
        · have := queen_dir_bound ht hpos hob
          omega
        · rw [show m - 1 + 1 = m by omega]
        · intro j hj
          exact hemp (j + 1) (by omega) (by omega)
      · rw [hk, if_neg (fun h => PieceType.noConfusion h),
            if_neg (fun h => PieceType.noConfusion h)]
        exact slider_ray_to_possible s pos (stepN pos t m)
          (hgate (stepN pos t m) hplayer) (Or.inr (Or.inr hk)) ht m hm rfl hemp hcorrect
      · rw [hk, if_neg (fun h => PieceType.noConfusion h),
            if_neg (fun h => PieceType.noConfusion h)]
        exact slider_ray_to_possible s pos (stepN pos t m)
          (hgate (stepN pos t m) hplayer) (Or.inr (Or.inl hk)) ht m hm rfl hemp hcorrect
    · obtain ⟨q, hob, hpt, hpp, hfd, hrd⟩ := hpawn
      refine ⟨q, (mem_allSquares q).mpr hob, ?_⟩
      simp only [Bool.and_eq_true, decide_eq_true_eq]
      refine ⟨⟨by rw [hpt]; intro h; exact PieceType.noConfusion h, hpp⟩, ?_⟩
      rw [hpt, if_neg (fun h => PieceType.noConfusion h), if_pos rfl]
      exact (pawn_possible_iff s pos q attacker hpt hpp (hgate q hpp)).mpr ⟨hfd, hrd⟩
    · obtain ⟨q, hob, hkt, hkp, hL⟩ := hknight
      refine ⟨q, (mem_allSquares q).mpr hob, ?_⟩
      simp only [Bool.and_eq_true, decide_eq_true_eq]
      refine ⟨⟨by rw [hkt]; intro h; exact PieceType.noConfusion h, hkp⟩, ?_⟩
      rw [hkt, if_neg (fun h => PieceType.noConfusion h),
          if_neg (fun h => PieceType.noConfusion h)]
      simp only [is_move_possible, move_mk_from, move_mk_to, hkt]
      rw [if_neg (hgate q hkp)]
      rw [decide_eq_true_eq]
      exact hL
  · rintro ⟨q, hqmem, hbody⟩
    have hob : onBoard q := (mem_allSquares q).mp hqmem
    simp only [Bool.and_eq_true, decide_eq_true_eq] at hbody
    obtain ⟨⟨hne, hqp⟩, hrest⟩ := hbody
    rcases htype : (get_piece s q).type with _ | _ | _ | _ | _ | _ | _
    · exact absurd htype hne
    · -- King
      rw [htype, if_pos rfl] at hrest
      obtain ⟨t, ht, k0, hk0, hq, hall⟩ := (king_on_clear_ray_iff s pos q).mp hrest
      refine Or.inl (Or.inl ⟨t, ht, k0 + 1, by omega, ?_, ?_, ?_, ?_, ?_⟩)
      · rw [← hq]
        exact hob
      · intro j hj1 hj2
        have h := hall (j - 1) (by omega)
        rwa [show j - 1 + 1 = j by omega] at h
      · rw [← hq, htype]
        intro h
        exact PieceType.noConfusion h
      · rw [← hq, htype]
        exact correct_ray_piece_king ht
      · rw [← hq]
        exact hqp
    · -- Queen
      rw [htype, if_neg (fun h => PieceType.noConfusion h),
          if_neg (fun h => PieceType.noConfusion h)] at hrest
      obtain ⟨t, ht, m, hm, hq, hemp, hcorrect⟩ :=
        slider_possible_to_ray s pos q (hgate q hqp) (Or.inl htype) hrest
      refine Or.inl (Or.inl ⟨t, ht, m, hm, ?_, hemp, ?_, ?_, ?_⟩)
      · rw [← hq]
        exact hob
      · rw [← hq, htype]
        intro h
        exact PieceType.noConfusion h
      · rw [← hq]
        exact hcorrect
      · rw [← hq]
        exact hqp
    · -- Rook
      rw [htype, if_neg (fun h => PieceType.noConfusion h),
          if_neg (fun h => PieceType.noConfusion h)] at hrest
      obtain ⟨t, ht, m, hm, hq, hemp, hcorrect⟩ :=
        slider_possible_to_ray s pos q (hgate q hqp) (Or.inr (Or.inl htype)) hrest
      refine Or.inl (Or.inl ⟨t, ht, m, hm, ?_, hemp, ?_, ?_, ?_⟩)
      · rw [← hq]
        exact hob
      · rw [← hq, htype]
        intro h
        exact PieceType.noConfusion h
      · rw [← hq]
        exact hcorrect
      · rw [← hq]
        exact hqp
    · -- Bishop
      rw [htype, if_neg (fun h => PieceType.noConfusion h),
          if_neg (fun h => PieceType.noConfusion h)] at hrest
      obtain ⟨t, ht, m, hm, hq, hemp, hcorrect⟩ :=
        slider_possible_to_ray s pos q (hgate q hqp) (Or.inr (Or.inr htype)) hrest
      refine Or.inl (Or.inl ⟨t, ht, m, hm, ?_, hemp, ?_, ?_, ?_⟩)
      · rw [← hq]
        exact hob
      · rw [← hq, htype]
        intro h
        exact PieceType.noConfusion h
      · rw [← hq]
        exact hcorrect
      · rw [← hq]
        exact hqp
    · -- Knight
      rw [htype, if_neg (fun h => PieceType.noConfusion h),
          if_neg (fun h => PieceType.noConfusion h)] at hrest
      simp only [is_move_possible, move_mk_from, move_mk_to, htype] at hrest
      rw [if_neg (hgate q hqp)] at hrest
      rw [decide_eq_true_eq] at hrest
      exact Or.inr ⟨q, hob, htype, hqp, hrest⟩
    · -- Pawn
      rw [htype, if_neg (fun h => PieceType.noConfusion h), if_pos rfl] at hrest
      obtain ⟨hfd, hrd⟩ :=
        (pawn_possible_iff s pos q attacker htype hqp (hgate q hqp)).mp hrest
      exact Or.inl (Or.inr ⟨q, hob, htype, hqp, hfd, hrd⟩)

/-- C7 counterexample to the claim as stated: in state_attack_cx the square
(0,0) holds a black pawn, so White is its natural attacker; is_piece_attacked
reports the square attacked by White (the white king on (0,3) is picked up by
the ray scan at distance 3), yet no white piece has a pseudo-legal move that
captures on (0,0). -/
theorem claim_C7_counterexample :
    (get_piece state_attack_cx ⟨0, 0⟩).type ≠ .Empty ∧
    (get_piece state_attack_cx ⟨0, 0⟩).player = other_player .WhitePlayer ∧
    is_piece_attacked state_attack_cx ⟨0, 0⟩ .WhitePlayer = true ∧
    spec_pseudo_legal_capture state_attack_cx ⟨0, 0⟩ .WhitePlayer = false :=
  ⟨by decide, by decide, by decide, by decide⟩

/-- Witness: the amended characterization applied to the counterexample state
at the concrete square (0,0) with attacker White. -/
theorem claim_C7_witness :
    is_piece_attacked state_attack_cx ⟨0, 0⟩ .WhitePlayer =
      amended_attack_characterization state_attack_cx ⟨0, 0⟩ .WhitePlayer :=
  claim_C7_amended_attack_characterization state_attack_cx ⟨0, 0⟩ .WhitePlayer
    (by decide) (by decide)

end Chess
